import Mathlib

/-!
Verification of the gauth token-manager core (Go sources under
`gauth/internal/...`) against its natural-language specification.

The Go code is shallowly embedded: bytes are `Nat` (reduced mod 256 at each
use site, mirroring Go's `byte` type), Go `uint64` arithmetic is `Nat`
arithmetic mod `2 ^ 64`, Go `int64` values are `Int` with explicit
two's-complement reinterpretation (`i64` / `toUint64`), and fallible code
returns `Except`.  Functions keep the names of the Go functions they embed.
Go run-time panics (reachable in `DecodeMessage` via the signed conversion
`int(length)`) are modelled as an explicit error constructor
`DecErr.panicSliceBounds`: reaching it in the model corresponds to a crash
of the real program, not to a returned error.
-/

set_option maxHeartbeats 1000000

/-- Two's-complement reinterpretation of a Go `uint64` bit pattern as `int64`
(`int64(val)` in Go). -/
def i64 (u : Nat) : Int :=
  if u < 2 ^ 63 then (u : Int) else (u : Int) - 2 ^ 64

/-- Two's-complement reinterpretation of a Go `int64` as `uint64`
(`uint64(v)` in Go). -/
def toUint64 (i : Int) : Nat :=
  (i % 2 ^ 64).toNat

/-- Wrap-around of Go signed 64-bit addition results: reduce an unbounded
integer into `[-2 ^ 63, 2 ^ 63)`. -/
def wrap64 (z : Int) : Int :=
  (z + 2 ^ 63) % 2 ^ 64 - 2 ^ 63

/-- ASCII bytes of a Lean string literal (the Go sources only compare and
slice ASCII data in the places we model). -/
def ascii (s : String) : List Nat :=
  s.data.map Char.toNat

/-! ## Varints (`encoding/binary.Uvarint` / `PutUvarint`) -/

/-- Result of `binary.Uvarint`: `ok value n` is a successful read of `n`
bytes, `truncated` is Go's `n == 0` (buffer ended mid-varint), `overflow` is
Go's `n < 0` (the varint does not terminate within 10 bytes, or its tenth
byte exceeds 1). -/
inductive UvarintRes where
  | ok (value : Nat) (n : Nat)
  | truncated
  | overflow
deriving DecidableEq, Repr

/-- Loop body of Go `binary.Uvarint` (current Go stdlib): `i` is the byte
index, `x` the accumulator, `s` the shift.  `MaxVarintLen64 = 10`. -/
def uvarintAux : List Nat → Nat → Nat → Nat → UvarintRes
  | [], _, _, _ => .truncated
  | b :: rest, i, x, s =>
    if i = 10 then .overflow
    else if b % 256 < 128 then
      if i = 9 ∧ b % 256 > 1 then .overflow
      else .ok ((x ||| (b % 256) <<< s) % 2 ^ 64) (i + 1)
    else uvarintAux rest (i + 1) ((x ||| ((b % 256) % 128) <<< s) % 2 ^ 64) (s + 7)

/-- Go `binary.Uvarint`. -/
def Uvarint (data : List Nat) : UvarintRes :=
  uvarintAux data 0 0 0

/-- Fuelled loop of Go `binary.PutUvarint`; 10 units of fuel cover every
`uint64` (the fuel-0 clause is unreachable for inputs `< 2 ^ 64`). -/
def putUvarintF : Nat → Nat → List Nat
  | 0, x => [x % 128]
  | f + 1, x => if x < 128 then [x] else (x % 128 + 128) :: putUvarintF f (x / 128)

/-- Go `binary.PutUvarint` (as the list of bytes written); the argument is a
`uint64`, so it is reduced mod `2 ^ 64` first. -/
def putUvarint (x : Nat) : List Nat :=
  putUvarintF 10 (x % 2 ^ 64)

/-- `writeTag` from `proto` (part_003): varint of
`uint64(fieldNum<<3) | uint64(wireType)`; the Go shift wraps mod `2 ^ 64`. -/
def writeTag (fieldNum wt : Nat) : List Nat :=
  putUvarint ((fieldNum <<< 3) % 2 ^ 64 ||| wt)

/-! ## Schema-less decoder (`gauth/internal/proto/decoder.go`) -/

/-- Dynamically-typed decoded value (`interface{}` in the Go map).  A
`fixed32` payload is kept as its raw 32 bits; the Go code views those bits
through `math.Float32frombits`, a bijection on bit patterns, which none of
the claims inspect further. -/
inductive PVal where
  | vint (i : Int)
  | vfix64 (u : Nat)
  | vfix32 (bits : Nat)
  | vstr (s : List Nat)
  | vbytes (b : List Nat)
  | vmsg (m : List (Nat × PVal))
  | vseq (l : List PVal)

/-- A decoded message: association list keyed by field number, in first-seen
order (the Go code keys a `map[string]interface{}` by the decimal string of
the field number, a bijective keying). -/
abbrev Msg := List (Nat × PVal)

/-- Decoder failures.  `truncatedInput` covers Go's "failed to read …"
(`Uvarint` returned 0) and "not enough data …" errors; `malformedVarint` is
`Uvarint` overflow; `panicSliceBounds` marks the run-time panic reachable
when `int(length)` is negative or `pos+int(length)` wraps, so that the
bounds check `pos+int(length) > len(data)` passes and the slice expression
`data[pos : pos+int(length)]` faults. -/
inductive DecErr where
  | truncatedInput
  | malformedVarint
  | unknownWireType
  | panicSliceBounds
deriving DecidableEq, Repr

/-- `addToResult` from decoder.go: first occurrence stores the scalar,
later occurrences collapse into an ordered `vseq`. -/
def addToResult (result : Msg) (key : Nat) (value : PVal) : Msg :=
  match result.lookup key with
  | some existing =>
    result.map fun kv =>
      if kv.1 = key then
        (key,
          match existing with
          | .vseq l => .vseq (l ++ [value])
          | old => .vseq [old, value])
      else kv
  | none => result ++ [(key, value)]

/-- `isLikelyString` from decoder.go: every byte is `≥ 0x20` or one of
tab, newline, carriage return; the empty payload counts as a string. -/
def isLikelyString (data : List Nat) : Bool :=
  data.all fun b => !(b % 256 < 32 && b % 256 ≠ 10 && b % 256 ≠ 13 && b % 256 ≠ 9)

/-- Little-endian read of `k` bytes (`binary.LittleEndian.Uint64/Uint32`). -/
def leNat : Nat → List Nat → Nat
  | 0, _ => 0
  | _ + 1, [] => 0
  | k + 1, b :: rest => b % 256 + 256 * leNat k rest

/-- Outcome of parsing one field of the wire stream (one iteration of the
`DecodeMessage` loop, everything except the recursive nested-message
attempt): an error, a scalar field, or a length-delimited field whose
payload still awaits classification. -/
inductive DecStep where
  | stepErr (e : DecErr)
  | stepScalar (fieldNum consumed : Nat) (v : PVal)
  | stepBytes (fieldNum consumed : Nat) (payload : List Nat)

/-- One iteration of the `DecodeMessage` loop (decoder.go lines 15-81) on
the unread suffix `data`; `pos` is the number of bytes of the current
call's buffer already consumed (`len(data) = pos + suffix length` in the
Go indexing).  The `WireBytes` bounds check mirrors Go exactly: the
declared length is converted through `int(length)` (`i64`), the sum
`pos+int(length)` wraps (`wrap64`), too-large results are the "not enough
data" error, and a result below `pos` (negative conversion or wrapped
sum) is the slice-bounds panic. -/
def decodeStep (pos : Nat) (data : List Nat) : DecStep :=
  match Uvarint data with
  | .truncated => .stepErr .truncatedInput
  | .overflow => .stepErr .malformedVarint
  | .ok tag n =>
    if tag % 8 = 0 then
      match Uvarint (data.drop n) with
      | .truncated => .stepErr .truncatedInput
      | .overflow => .stepErr .malformedVarint
      | .ok v m => .stepScalar (tag / 8) (n + m) (.vint (i64 v))
    else if tag % 8 = 1 then
      if (data.drop n).length < 8 then .stepErr .truncatedInput
      else .stepScalar (tag / 8) (n + 8) (.vfix64 (leNat 8 (data.drop n)))
    else if tag % 8 = 2 then
      match Uvarint (data.drop n) with
      | .truncated => .stepErr .truncatedInput
      | .overflow => .stepErr .malformedVarint
      | .ok len m =>
        if wrap64 (((pos + n + m : Nat) : Int) + i64 len) >
            ((pos + n + m : Nat) : Int) + ((data.drop n).drop m).length then
          .stepErr .truncatedInput
        else if wrap64 (((pos + n + m : Nat) : Int) + i64 len) <
            ((pos + n + m : Nat) : Int) then
          .stepErr .panicSliceBounds
        else .stepBytes (tag / 8) (n + m + len) (((data.drop n).drop m).take len)
    else if tag % 8 = 5 then
      if (data.drop n).length < 4 then .stepErr .truncatedInput
      else .stepScalar (tag / 8) (n + 4) (.vfix32 (leNat 4 (data.drop n)))
    else .stepErr .unknownWireType

/-- The decode loop of `DecodeMessage`: parse one field with `decodeStep`,
classify a length-delimited payload by first attempting a recursive decode
(nested message if it succeeds non-empty, else text if printable, else raw
bytes), accumulate with `addToResult`, continue on the remaining suffix.
Fuel decreases at every recursive call; every call is on a strictly
shorter suffix, so fuel equal to the buffer length always suffices
(`decodeLoopF_congr`). -/
def decodeLoopF : Nat → Nat → List Nat → Msg → Except DecErr Msg
  | _, _, [], acc => .ok acc
  | 0, _, _ :: _, _ => .error .truncatedInput
  | fuel + 1, pos, b :: bs, acc =>
    match decodeStep pos (b :: bs) with
    | .stepErr e => .error e
    | .stepScalar fieldNum consumed v =>
      decodeLoopF fuel (pos + consumed) ((b :: bs).drop consumed)
        (addToResult acc fieldNum v)
    | .stepBytes fieldNum consumed payload =>
      let v :=
        match decodeLoopF fuel 0 payload [] with
        | .ok nested =>
          if nested.length > 0 then PVal.vmsg nested
          else if isLikelyString payload then PVal.vstr payload
          else PVal.vbytes payload
        | .error _ =>
          if isLikelyString payload then PVal.vstr payload
          else PVal.vbytes payload
      decodeLoopF fuel (pos + consumed) ((b :: bs).drop consumed)
        (addToResult acc fieldNum v)

/-- `DecodeMessage` from decoder.go. -/
def DecodeMessage (data : List Nat) : Except DecErr Msg :=
  decodeLoopF data.length 0 data []

/-- The decoder's classification of one length-delimited payload: nested
message first, else printable text, else raw bytes (decoder.go lines
56-67). -/
def classify (payload : List Nat) : PVal :=
  match DecodeMessage payload with
  | .ok nested =>
    if nested.length > 0 then .vmsg nested
    else if isLikelyString payload then .vstr payload else .vbytes payload
  | .error _ =>
    if isLikelyString payload then .vstr payload else .vbytes payload

/-! ## Schema-driven encoder (`proto` package, part_003) -/

/-- `FieldType` constants from part_003. -/
inductive FieldType where
  | tInt
  | tString
  | tBytes
  | tMessage
  | tBool
deriving DecidableEq, Repr

mutual
/-- `FieldDef` from part_003: declared type, repeated flag, and nested
schema (`MessageDef`; `nil` and the empty map behave identically in the
encoder, so a list models both). -/
inductive FieldDef where
  | mk (type : FieldType) (repeated : Bool) (messageDef : List (Nat × FieldDef))

end

/-- Declared type of a field definition. -/
def FieldDef.type : FieldDef → FieldType
  | .mk t _ _ => t

/-- Repeated flag of a field definition. -/
def FieldDef.repeated : FieldDef → Bool
  | .mk _ r _ => r

/-- Nested schema of a field definition. -/
def FieldDef.messageDef : FieldDef → List (Nat × FieldDef)
  | .mk _ _ m => m

/-- `MessageType` from part_003, keyed by the numeric field number (the Go
map is keyed by its decimal string, a bijective keying). -/
abbrev MessageType := List (Nat × FieldDef)

/-- Run-time shape of a Go `interface{}` message value as the encoder
inspects it.  `gint` collapses Go's `int`, `int32` and `int64` cases (all
are value-preserving conversions to `int64` in the source); `float64`
values (accepted only through `toInt64`) are outside the model. -/
inductive GoVal where
  | gint (i : Int)
  | guint64 (u : Nat)
  | gbool (b : Bool)
  | gstr (s : List Nat)
  | gbytes (b : List Nat)
  | gmap (m : List (Nat × GoVal))
  | glist (l : List GoVal)

/-- A message handed to `Encode`: association list from field number to
value (the Go `map[string]interface{}` with decimal-numeral keys). -/
abbrev GoMsg := List (Nat × GoVal)

mutual
/-- Structural size of a value, used as a fuel bound for the encoder. -/
def GoVal.msize : GoVal → Nat
  | .gint _ => 1
  | .guint64 _ => 1
  | .gbool _ => 1
  | .gstr _ => 1
  | .gbytes _ => 1
  | .gmap m => 1 + msizePairs m
  | .glist l => 1 + msizeList l

/-- Structural size of a message (association list). -/
def msizePairs : GoMsg → Nat
  | [] => 1
  | (_, v) :: rest => 1 + v.msize + msizePairs rest

/-- Structural size of a value list. -/
def msizeList : List GoVal → Nat
  | [] => 1
  | v :: rest => 1 + v.msize + msizeList rest
end

/-- Encoder failures (`fmt.Errorf` sites in part_003).  `outOfFuel` is an
artifact of the fuelled embedding and is unreachable from `Encode`, whose
fuel exceeds the recursion depth of any input. -/
inductive EncErr where
  | schemaMismatch
  | unknownType
  | outOfFuel
deriving DecidableEq, Repr

/-- `toInt64` from part_003 restricted to the modelled value shapes
(`int`/`int32`/`int64` are `gint`; `float64` is not modelled). -/
def toInt64 : GoVal → Except EncErr Int
  | .gint i => .ok i
  | .guint64 u => .ok (i64 u)
  | .gbool b => .ok (if b then 1 else 0)
  | _ => .error .schemaMismatch

/-- The key sort at the top of `encodeMessage` (Go `sort.Slice` by numeric
key; keys are unique in a Go map, so any sort on the key is the same
permutation). -/
def sortPairs (m : GoMsg) : GoMsg :=
  m.insertionSort fun a b => a.1 ≤ b.1

/-- Work items of the encoder's mutual recursion: `fields` is the
post-sort loop of `encodeMessage`, `typed` is `encodeTypedField`, `items`
is the per-element loop for repeated fields, `auto` is
`encodeAutoField`. -/
inductive EncWork where
  | fields (items : GoMsg) (schema : MessageType)
  | typed (fieldNum : Nat) (v : GoVal) (d : FieldDef)
  | items (fieldNum : Nat) (l : List GoVal) (d : FieldDef)
  | auto (fieldNum : Nat) (v : GoVal)

/-- Fuelled interpreter for the encoder's mutual recursion
(`encodeMessage` / `encodeTypedField` / `encodeAutoField` from part_003).
Fuel decreases at every call; `Encode` supplies fuel exceeding the
recursion depth of its input (`encodeGoF_congr`). -/
def encodeGoF : Nat → EncWork → Except EncErr (List Nat)
  | 0, _ => .error .outOfFuel
  | fuel + 1, w =>
    match w with
    | .fields [] _ => .ok []
    | .fields ((key, value) :: restItems) schema =>
      let head :=
        match schema.lookup key with
        | none => encodeGoF fuel (.auto key value)
        | some fieldDef =>
          if fieldDef.repeated then
            match value with
            | .glist l => encodeGoF fuel (.items key l fieldDef)
            | v => encodeGoF fuel (.items key [v] fieldDef)
          else encodeGoF fuel (.typed key value fieldDef)
      match head with
      | .error e => .error e
      | .ok bytes =>
        match encodeGoF fuel (.fields restItems schema) with
        | .error e => .error e
        | .ok restBytes => .ok (bytes ++ restBytes)
    | .items _ [] _ => .ok []
    | .items fieldNum (item :: restItems) d =>
      match encodeGoF fuel (.typed fieldNum item d) with
      | .error e => .error e
      | .ok bytes =>
        match encodeGoF fuel (.items fieldNum restItems d) with
        | .error e => .error e
        | .ok restBytes => .ok (bytes ++ restBytes)
    | .typed fieldNum v d =>
      match d.type with
      | .tInt =>
        match toInt64 v with
        | .error e => .error e
        | .ok i => .ok (writeTag fieldNum 0 ++ putUvarint (toUint64 i))
      | .tBool =>
        match v with
        | .gbool b =>
          .ok (writeTag fieldNum 0 ++ putUvarint (if b then 1 else 0))
        | _ => .error .schemaMismatch
      | .tString =>
        match v with
        | .gstr s => .ok (writeTag fieldNum 2 ++ putUvarint s.length ++ s)
        | _ => .error .schemaMismatch
      | .tBytes =>
        match v with
        | .gbytes b => .ok (writeTag fieldNum 2 ++ putUvarint b.length ++ b)
        | .gstr s => .ok (writeTag fieldNum 2 ++ putUvarint s.length ++ s)
        | _ => .error .schemaMismatch
      | .tMessage =>
        match v with
        | .gmap sub =>
          match encodeGoF fuel (.fields (sortPairs sub) d.messageDef) with
          | .error e => .error e
          | .ok nested =>
            .ok (writeTag fieldNum 2 ++ putUvarint nested.length ++ nested)
        | _ => .error .schemaMismatch
    | .auto fieldNum v =>
      match v with
      | .gint i => .ok (writeTag fieldNum 0 ++ putUvarint (toUint64 i))
      | .guint64 u => .ok (writeTag fieldNum 0 ++ putUvarint u)
      | .gbool b => .ok (writeTag fieldNum 0 ++ putUvarint (if b then 1 else 0))
      | .gstr s => .ok (writeTag fieldNum 2 ++ putUvarint s.length ++ s)
      | .gbytes b => .ok (writeTag fieldNum 2 ++ putUvarint b.length ++ b)
      | .gmap sub =>
        match encodeGoF fuel (.fields (sortPairs sub) []) with
        | .error e => .error e
        | .ok nested =>
          .ok (writeTag fieldNum 2 ++ putUvarint nested.length ++ nested)
      | .glist _ => .error .unknownType

/-- `Encode` from part_003: sort the field numbers, then encode each field
(by schema when declared, auto-detected otherwise).  The fuel
`2 * msizePairs msg + 4` strictly dominates the recursion depth
(`Encode_eq_encodeGoF` below). -/
def Encode (msg : GoMsg) (schema : MessageType) : Except EncErr (List Nat) :=
  encodeGoF (2 * msizePairs msg + 4) (.fields (sortPairs msg) schema)

/-! ## Auth response parsing and exchange (`gauth/internal/auth/auth.go`) -/

/-- `Response` from auth.go restricted to the fields the parser assigns
(the `Expiry` field is declared but never set by `parseAuthResponse`).
Strings are byte lists; `rawFields` keeps every `key=value` pair, with Go
map overwrite semantics on duplicate keys. -/
structure AuthResponse where
  auth : List Nat := []
  token : List Nat := []
  email : List Nat := []
  sid : List Nat := []
  lsid : List Nat := []
  services : List Nat := []
  firstName : List Nat := []
  lastName : List Nat := []
  accountId : List Nat := []
  issueAdvice : List Nat := []
  grantedScopes : List Nat := []
  error : List Nat := []
  rawFields : List (List Nat × List Nat) := []
deriving DecidableEq, Repr

/-- Go map insert with overwrite (for `RawFields`). -/
def rawInsert (m : List (List Nat × List Nat)) (k v : List Nat) : List (List Nat × List Nat) :=
  if (m.lookup k).isSome then m.map (fun kv => if kv.1 = k then (k, v) else kv)
  else m ++ [(k, v)]

/-- `strings.ReplaceAll(body, CRLF, LF)`: left-to-right, non-overlapping. -/
def replaceCRLF : List Nat → List Nat
  | [] => []
  | 13 :: 10 :: rest => 10 :: replaceCRLF rest
  | b :: rest => b :: replaceCRLF rest

/-- `strings.Split` on a single byte separator. -/
def splitOnByte (sep : Nat) : List Nat → List (List Nat)
  | [] => [[]]
  | b :: rest =>
    match splitOnByte sep rest with
    | [] => [[]]
    | cur :: more => if b = sep then [] :: cur :: more else (b :: cur) :: more

/-- ASCII white space (`strings.TrimSpace` on the ASCII bodies the claims
exercise; the Unicode space classes never occur in them). -/
def isSpaceByte (b : Nat) : Bool :=
  b = 9 || b = 10 || b = 11 || b = 12 || b = 13 || b = 32

/-- `strings.TrimSpace` on bytes. -/
def trimSpace (l : List Nat) : List Nat :=
  (l.dropWhile isSpaceByte).reverse.dropWhile isSpaceByte |>.reverse

/-- One loop iteration of `parseAuthResponse`: trim the line, find the
first `=`; skip the line when `=` is absent or at position 0; otherwise
record the raw pair and assign the matching struct field. -/
def applyAuthLine (r : AuthResponse) (rawLine : List Nat) : AuthResponse :=
  let line := trimSpace rawLine
  match line.findIdx? (fun b => b = 61) with
  | none => r
  | some idx =>
    if idx = 0 then r
    else
      let key := line.take idx
      let value := line.drop (idx + 1)
      let r := { r with rawFields := rawInsert r.rawFields key value }
      if key = ascii "Auth" then { r with auth := value }
      else if key = ascii "Token" then { r with token := value }
      else if key = ascii "Email" then { r with email := value }
      else if key = ascii "SID" then { r with sid := value }
      else if key = ascii "LSID" then { r with lsid := value }
      else if key = ascii "services" then { r with services := value }
      else if key = ascii "firstName" then { r with firstName := value }
      else if key = ascii "lastName" then { r with lastName := value }
      else if key = ascii "accountId" then { r with accountId := value }
      else if key = ascii "issueAdvice" then { r with issueAdvice := value }
      else if key = ascii "grantedScopes" then { r with grantedScopes := value }
      else if key = ascii "Error" then { r with error := value }
      else r

/-- `parseAuthResponse` from auth.go. -/
def parseAuthResponse (body : List Nat) : AuthResponse :=
  (splitOnByte 10 (replaceCRLF body)).foldl applyAuthLine {}

/-- Errors surfaced by the auth client. -/
inductive AuthErr where
  | authFailed (status : Nat) (msg : List Nat)
  | noMasterToken
deriving DecidableEq, Repr

/-- The tail of `doAuthRequest` (auth.go lines 148-158) after the HTTP
round trip produced `status` and `body`: parse unconditionally, and pair
the parsed result with an error exactly when the status is not 200 (the
error message prefers the parsed `Error` field over the raw body).  Note
that a 200 status yields no error even when `Auth` is empty. -/
def doAuthRequest (status : Nat) (body : List Nat) : AuthResponse × Option AuthErr :=
  let result := parseAuthResponse body
  if status ≠ 200 then
    (result, some (.authFailed status (if result.error = [] then body else result.error)))
  else (result, none)

/-- Persistent configuration fields used by the modelled operations
(`gauth/internal/config`, part_001). -/
structure Config where
  androidID : List Nat := []
  securityToken : List Nat := []
  email : List Nat := []
  masterToken : List Nat := []
  sdkVersion : Nat := 33
deriving DecidableEq, Repr

/-- `Config.HasMasterToken` (part_001 lines 111-113): master token AND
email must both be non-empty. -/
def Config.HasMasterToken (c : Config) : Bool :=
  c.masterToken ≠ [] && c.email ≠ []

/-- Decimal numeral bytes (`fmt.Sprintf` with a `%d` verb). -/
def decimal (n : Nat) : List Nat :=
  ascii (toString n)

/-- The guard and form construction of `FetchServiceToken` (auth.go lines
66-92): with no master token the function returns the error before any
request is built or sent; otherwise it produces the form that is POSTed. -/
def FetchServiceToken (cfg : Config) (scope appPackage appSig : List Nat) :
    Except AuthErr (List (List Nat × List Nat)) :=
  if !cfg.HasMasterToken then .error .noMasterToken
  else
    .ok
      [(ascii "androidId", cfg.androidID),
       (ascii "sdk_version", decimal cfg.sdkVersion),
       (ascii "device_country", ascii "us"),
       (ascii "operatorCountry", ascii "us"),
       (ascii "lang", ascii "en_US"),
       (ascii "google_play_services_version", ascii "224714044"),
       (ascii "accountType", ascii "HOSTED_OR_GOOGLE"),
       (ascii "Email", cfg.email),
       (ascii "service", scope),
       (ascii "source", ascii "android"),
       (ascii "app", appPackage),
       (ascii "client_sig", appSig),
       (ascii "callerPkg", appPackage),
       (ascii "callerSig", appSig),
       (ascii "Token", cfg.masterToken),
       (ascii "system_partition", ascii "1"),
       (ascii "has_permission", ascii "1")]

/-! ## The `/api/token` handler tail (server, part_000) -/

/-- Token-type classification from the `/api/token` handler (part_000
lines 112-117): Go byte-slice comparisons guarded by strict length
tests. -/
def tokenType (auth : List Nat) : List Nat :=
  if auth.length > 7 ∧ auth.take 7 = ascii "aas_et/" then ascii "aes"
  else if auth.length > 5 ∧ auth.take 5 = ascii "ya29." then ascii "oauth2"
  else ascii "unknown"

/-- JSON response record of `/api/token`. -/
structure TokenResponse where
  token : List Nat := []
  email : List Nat := []
  tokenTypeField : List Nat := []
  grantedScopes : List Nat := []
  error : List Nat := []
deriving DecidableEq, Repr

/-- The tail of the `/api/token` handler (part_000 lines 100-125) from the
point where `FetchServiceToken` has returned: a fetch error is a 500, an
empty `Auth` is a 500 with "empty token in response", and otherwise a 200
carrying the token and its prefix classification. -/
def tokenHandlerTail (cfgEmail : List Nat) (fetched : Except AuthErr AuthResponse) :
    Nat × TokenResponse :=
  match fetched with
  | .error _ => (500, { error := ascii "token fetch error" })
  | .ok resp =>
    if resp.auth = [] then (500, { error := ascii "empty token in response" })
    else
      (200,
       { token := resp.auth
         email := cfgEmail
         tokenTypeField := tokenType resp.auth
         grantedScopes := resp.grantedScopes })

/-! ## Device registration tail (`gauth/internal/checkin/checkin.go`) -/

/-- `Result` from checkin.go. -/
structure CheckinResult where
  androidID : Nat
  securityToken : Nat
deriving DecidableEq, Repr

/-- Errors of the checkin tail. -/
inductive CheckinErr where
  | decodeFailed (e : DecErr)
  | missingAndroidId
deriving DecidableEq, Repr

/-- The extraction switch of checkin.go (lines 92-109): a decoded `uint64`
is taken as is, a decoded `int64` is reinterpreted, anything else leaves
the zero value in place. -/
def extractU64 : Option PVal → Nat
  | some (.vfix64 u) => u
  | some (.vint i) => toUint64 i
  | _ => 0

/-- The tail of `Checkin` (checkin.go lines 83-115) applied to the
decompressed response bytes: decode, read fields 7 and 8, fail when the
android id is zero.  The security token is *not* validated. -/
def Checkin (respBytes : List Nat) : Except CheckinErr CheckinResult :=
  match DecodeMessage respBytes with
  | .error e => .error (.decodeFailed e)
  | .ok decoded =>
    let result : CheckinResult :=
      { androidID := extractU64 (decoded.lookup 7)
        securityToken := extractU64 (decoded.lookup 8) }
    if result.androidID = 0 then .error .missingAndroidId
    else .ok result

/-! ## Proxy capture state (`gauth/internal/server/proxy.go`) -/

/-- `ProxyState` (proxy.go lines 21-29) without the waiter channels: the
`listeners` notification in `SetToken` writes no field modelled here and
the claims do not observe it. -/
structure ProxyState where
  captured : Bool := false
  oauthToken : List Nat := []
  email : List Nat := []
  error : List Nat := []
deriving DecidableEq, Repr

/-- `ProxyState.SetToken` (proxy.go lines 35-46): unconditionally record
the token and raise the captured flag; the whole method body runs under
the state mutex, so it is one atomic step. -/
def ProxyState.SetToken (s : ProxyState) (token : List Nat) : ProxyState :=
  { s with oauthToken := token, captured := true }

/-- `ProxyState.SetResult` (proxy.go lines 48-53). -/
def ProxyState.SetResult (s : ProxyState) (email errMsg : List Nat) : ProxyState :=
  { s with email := email, error := errMsg }

/-- `ProxyState.IsCaptured` (proxy.go lines 55-59): an atomic read. -/
def ProxyState.IsCaptured (s : ProxyState) : Bool :=
  s.captured

/-- `exchangeToken` (proxy.go lines 373-400) with the network call and the
config save abstracted to parameters: `fetched` is what
`auth.ExchangeOAuthForMaster` returned (an error models both request
failures and non-200 statuses, which `doAuthRequest` reports as errors),
and `saveOk` is whether `cfg.Save()` succeeds.  Returns the updated config
and proxy state. -/
def exchangeToken (cfg : Config) (state : ProxyState)
    (fetched : Except AuthErr AuthResponse) (saveOk : Bool) :
    Config × ProxyState :=
  match fetched with
  | .error _ => (cfg, state.SetResult [] (ascii "token exchange failed"))
  | .ok resp =>
    let masterToken := if resp.token ≠ [] then resp.token else resp.auth
    if masterToken = [] then
      (cfg, state.SetResult [] (ascii "empty token in response: " ++ resp.error))
    else
      let cfg := { cfg with masterToken := masterToken, email := resp.email }
      if saveOk then (cfg, state.SetResult resp.email [])
      else (cfg, state.SetResult [] (ascii "save failed"))

/-! ## Two-handler capture race (proxy.go lines 171-189)

Each request handler that sees a non-empty `oauth_token` cookie runs, in
program order, two atomic actions:  (1) `state.IsCaptured()` (lock held
inside the method) and (2), if the observed value was `false`,
`state.SetToken(token)` followed by dispatching one background
`exchangeToken` goroutine.  The lock is *not* held between the two
actions.  `raceRun` executes any interleaving of the two handlers. -/

/-- Global state of the race harness: the shared `ProxyState`, each
handler's program counter and observed `IsCaptured` value, the number of
dispatched background exchanges, and the number of `false → true`
transitions of the captured flag. -/
structure RaceState where
  st : ProxyState := {}
  pcA : Nat := 0
  pcB : Nat := 0
  obsA : Bool := false
  obsB : Bool := false
  dispatches : Nat := 0
  transitions : Nat := 0
deriving DecidableEq, Repr

/-- One atomic step of one handler (`who = true` is handler A).  Step 0
performs the `IsCaptured` read; step 1 performs the guarded
`SetToken`-and-dispatch from proxy.go lines 179-187. -/
def raceStep (tokenA tokenB : List Nat) (s : RaceState) (who : Bool) : RaceState :=
  let token := if who then tokenA else tokenB
  let pc := if who then s.pcA else s.pcB
  if pc = 0 then
    let obs := s.st.IsCaptured
    if who then { s with pcA := 1, obsA := obs } else { s with pcB := 1, obsB := obs }
  else if pc = 1 then
    let obs := if who then s.obsA else s.obsB
    let s := if who then { s with pcA := 2 } else { s with pcB := 2 }
    if token ≠ [] ∧ obs = false then
      { s with
        st := s.st.SetToken token
        transitions := s.transitions + (if s.st.captured then 0 else 1)
        dispatches := s.dispatches + 1 }
    else s
  else s

/-- Run a schedule (list of turns) of the two-handler race from the idle
state. -/
def raceRun (tokenA tokenB : List Nat) (sched : List Bool) : RaceState :=
  sched.foldl (raceStep tokenA tokenB) {}

theorem lor_shift_eq_add {a : Nat} (b s : Nat) (h : a < 2 ^ s) :
    a ||| b <<< s = a + b * 2 ^ s := by
  apply Nat.eq_of_testBit_eq
  intro j
  rw [Nat.testBit_lor, Nat.testBit_shiftLeft]
  by_cases hj : s ≤ j
  · have hfa : a.testBit j = false := by
      apply Nat.testBit_lt_two_pow
      exact lt_of_lt_of_le h (Nat.pow_le_pow_right (by norm_num) hj)
    have hdiv : (a + b * 2 ^ s) / 2 ^ j = b / 2 ^ (j - s) := by
      have e1 : (2 : Nat) ^ j = 2 ^ s * 2 ^ (j - s) := by
        rw [← pow_add]; congr 1; omega
      rw [e1, ← Nat.div_div_eq_div_mul]
      have e2 : (a + b * 2 ^ s) / 2 ^ s = b := by
        rw [mul_comm b, Nat.add_mul_div_left _ _ (Nat.two_pow_pos s),
          Nat.div_eq_of_lt h, zero_add]
      rw [e2]
    have hsum : (a + b * 2 ^ s).testBit j = b.testBit (j - s) := by
      rw [Nat.testBit_to_div_mod, Nat.testBit_to_div_mod, hdiv]
    rw [hsum, hfa]
    simp [hj]
  · have hdiv : (a + b * 2 ^ s) / 2 ^ j % 2 = a / 2 ^ j % 2 := by
      have e0 : (2 : Nat) ^ s = 2 ^ (s - j - 1) * 2 * 2 ^ j := by
        rw [mul_assoc, mul_comm 2, ← pow_succ, ← pow_add]
        congr 1; omega
      have e1 : a + b * 2 ^ s = a + b * 2 ^ (s - j - 1) * 2 * 2 ^ j := by
        rw [e0]; ring
      rw [e1, Nat.add_mul_div_right _ _ (Nat.two_pow_pos j)]
      omega
    have hsum : (a + b * 2 ^ s).testBit j = a.testBit j := by
      rw [Nat.testBit_to_div_mod, Nat.testBit_to_div_mod, hdiv]
    rw [hsum]
    simp [hj]

theorem wrap64_eq_self {z : Int} (h1 : -(2 ^ 63) ≤ z) (h2 : z < 2 ^ 63) :
    wrap64 z = z := by
  unfold wrap64
  have : (z + 2 ^ 63) % 2 ^ 64 = z + 2 ^ 63 := by
    apply Int.emod_eq_of_lt <;> omega
  omega

theorem putUvarintF_length_le (f : Nat) : ∀ x, (putUvarintF f x).length ≤ f + 1 := by
  induction f with
  | zero => intro x; simp [putUvarintF]
  | succ f ih =>
    intro x
    by_cases h : x < 128
    · simp [putUvarintF, h]
    · simp only [putUvarintF, h, if_false, List.length_cons]
      have := ih (x / 128)
      omega

theorem putUvarintF_ne_nil (f x : Nat) : putUvarintF f x ≠ [] := by
  cases f with
  | zero => simp [putUvarintF]
  | succ f =>
    by_cases h : x < 128 <;> simp [putUvarintF, h]

theorem uvarintAux_ok_bounds :
    ∀ (data : List Nat) (i x s v n : Nat),
      uvarintAux data i x s = .ok v n → i < n ∧ n ≤ i + data.length := by
  intro data
  induction data with
  | nil => intro i x s v n h; simp [uvarintAux] at h
  | cons b rest ih =>
    intro i x s v n h
    simp only [uvarintAux] at h
    by_cases h10 : i = 10
    · simp [h10] at h
    · rw [if_neg h10] at h
      by_cases hb : b % 256 < 128
      · rw [if_pos hb] at h
        by_cases h9 : i = 9 ∧ b % 256 > 1
        · simp [h9] at h
        · rw [if_neg h9] at h
          cases h
          simp only [List.length_cons]
          omega
      · rw [if_neg hb] at h
        have := ih _ _ _ _ _ h
        simp only [List.length_cons]
        omega

theorem uvarintAux_put (f : Nat) :
    ∀ (x i acc : Nat) (rest : List Nat),
      x < 2 ^ (64 - 7 * i) → i ≤ 9 → 10 ≤ f + i → acc < 2 ^ (7 * i) →
      uvarintAux (putUvarintF f x ++ rest) i acc (7 * i) =
        .ok (acc + x * 2 ^ (7 * i)) (i + (putUvarintF f x).length) := by
  induction f with
  | zero => intro x i acc rest hx hi hf hacc; omega
  | succ f ih =>
    intro x i acc rest hx hi hf hacc
    by_cases hsmall : x < 128
    · -- terminal byte
      simp only [putUvarintF, hsmall, if_true, List.cons_append, List.length_cons,
        List.length_nil]
      simp only [uvarintAux]
      have h10 : ¬ (i = 10) := by omega
      have hb : x % 256 < 128 := by omega
      rw [if_neg h10, if_pos hb]
      have h9 : ¬ (i = 9 ∧ x % 256 > 1) := by
        rintro ⟨h9, hgt⟩
        subst h9
        have : x < 2 ^ (64 - 63) := by simpa using hx
        omega
      rw [if_neg h9]
      have hxm : x % 256 = x := Nat.mod_eq_of_lt (by omega)
      rw [hxm, lor_shift_eq_add x (7 * i) hacc]
      have hlt : acc + x * 2 ^ (7 * i) < 2 ^ 64 := by
        have h1 : x * 2 ^ (7 * i) ≤ (2 ^ (64 - 7 * i) - 1) * 2 ^ (7 * i) := by
          apply Nat.mul_le_mul_right
          omega
        have h2 : (2 ^ (64 - 7 * i) - 1) * 2 ^ (7 * i) = 2 ^ 64 - 2 ^ (7 * i) := by
          rw [Nat.sub_mul, one_mul, ← pow_add]
          congr 2
          omega
        have h3 : (2 : Nat) ^ (7 * i) ≤ 2 ^ 64 := Nat.pow_le_pow_right (by norm_num) (by omega)
        omega
      rw [Nat.mod_eq_of_lt hlt]
    · -- continuation byte
      simp only [putUvarintF, hsmall, if_false, List.cons_append, List.length_cons]
      simp only [uvarintAux]
      have h10 : ¬ (i = 10) := by omega
      have hge8 : 8 ≤ 64 - 7 * i := by
        by_contra hcon
        have : (2 : Nat) ^ (64 - 7 * i) ≤ 2 ^ 7 := Nat.pow_le_pow_right (by norm_num) (by omega)
        omega
      have hbmod : (x % 128 + 128) % 256 = x % 128 + 128 := Nat.mod_eq_of_lt (by omega)
      have hb : ¬ ((x % 128 + 128) % 256 < 128) := by rw [hbmod]; omega
      rw [if_neg h10, if_neg hb, hbmod]
      have h7 : (x % 128 + 128) % 128 = x % 128 := by omega
      rw [h7, lor_shift_eq_add (x % 128) (7 * i) hacc]
      have haccnew : acc + x % 128 * 2 ^ (7 * i) < 2 ^ (7 * (i + 1)) := by
        have e : (2 : Nat) ^ (7 * (i + 1)) = 2 ^ (7 * i) * 128 := by
          rw [Nat.mul_add, pow_add]; norm_num
        have h1 : x % 128 * 2 ^ (7 * i) ≤ 127 * 2 ^ (7 * i) := by
          apply Nat.mul_le_mul_right; omega
        have h2 : (0 : Nat) < 2 ^ (7 * i) := Nat.two_pow_pos _
        calc acc + x % 128 * 2 ^ (7 * i) < 2 ^ (7 * i) + 127 * 2 ^ (7 * i) := by omega
        _ = 2 ^ (7 * i) * 128 := by ring
        _ = 2 ^ (7 * (i + 1)) := e.symm
      have hmod64 : (acc + x % 128 * 2 ^ (7 * i)) % 2 ^ 64 = acc + x % 128 * 2 ^ (7 * i) := by
        apply Nat.mod_eq_of_lt
        have : (2 : Nat) ^ (7 * (i + 1)) ≤ 2 ^ 64 := Nat.pow_le_pow_right (by norm_num) (by omega)
        omega
      rw [hmod64]
      have hs : 7 * i + 7 = 7 * (i + 1) := by ring
      rw [hs]
      have hxdiv : x / 128 < 2 ^ (64 - 7 * (i + 1)) := by
        rw [Nat.div_lt_iff_lt_mul (by norm_num : (0:Nat) < 128)]
        have e : (2 : Nat) ^ (64 - 7 * (i + 1)) * 128 = 2 ^ (64 - 7 * i) := by
          have : (128 : Nat) = 2 ^ 7 := by norm_num
          rw [this, ← pow_add]
          congr 1
          omega
        rw [e]
        exact hx
      have hi1 : i + 1 ≤ 9 := by
        by_contra hcon
        have h9 : i = 9 := by omega
        subst h9
        have : x < 2 ^ (64 - 63) := by simpa using hx
        omega
      have := ih (x / 128) (i + 1) (acc + x % 128 * 2 ^ (7 * i)) rest hxdiv hi1 (by omega) haccnew
      rw [this]
      congr 1
      · have e : (2 : Nat) ^ (7 * (i + 1)) = 2 ^ (7 * i) * 128 := by
          rw [Nat.mul_add, pow_add]; norm_num
        rw [e]
        have : x % 128 + 128 * (x / 128) = x := Nat.mod_add_div x 128
        calc acc + x % 128 * 2 ^ (7 * i) + x / 128 * (2 ^ (7 * i) * 128)
            = acc + (x % 128 + 128 * (x / 128)) * 2 ^ (7 * i) := by ring
        _ = acc + x * 2 ^ (7 * i) := by rw [this]
      · omega

theorem Uvarint_putUvarint {x : Nat} (h : x < 2 ^ 64) (rest : List Nat) :
    Uvarint (putUvarint x ++ rest) = .ok x (putUvarint x).length := by
  unfold Uvarint putUvarint
  rw [Nat.mod_eq_of_lt h]
  have := uvarintAux_put 10 x 0 0 rest (by simpa using h) (by norm_num) (by norm_num)
    (by norm_num)
  simpa using this

theorem Uvarint_ok_bounds {data : List Nat} {v n : Nat} (h : Uvarint data = .ok v n) :
    1 ≤ n ∧ n ≤ data.length := by
  have := uvarintAux_ok_bounds data 0 0 0 v n h
  omega

theorem toUint64_lt (i : Int) : toUint64 i < 2 ^ 64 := by
  unfold toUint64
  omega

theorem i64_toUint64 {i : Int} (h1 : -(2 ^ 63) ≤ i) (h2 : i < 2 ^ 63) :
    i64 (toUint64 i) = i := by
  unfold i64 toUint64
  split <;> omega

theorem toUint64_i64 {u : Nat} (h : u < 2 ^ 64) : toUint64 (i64 u) = u := by
  unfold i64 toUint64
  split <;> omega

theorem writeTag_eq {f : Nat} (wt : Nat) (hf : f < 2 ^ 61) (hwt : wt < 8) :
    writeTag f wt = putUvarint (8 * f + wt) := by
  unfold writeTag
  have h8 : f <<< 3 = f * 8 := by
    rw [Nat.shiftLeft_eq]
  have hlt : f * 8 < 2 ^ 64 := by
    have : f * 8 < 2 ^ 61 * 8 := by omega
    omega
  rw [h8, Nat.mod_eq_of_lt hlt]
  have : f * 8 ||| wt = wt ||| f <<< 3 := by
    rw [Nat.lor_comm, Nat.shiftLeft_eq]
  rw [this, lor_shift_eq_add f 3 (by omega)]
  congr 1
  ring

theorem tag_lt {f wt : Nat} (hf : f < 2 ^ 61) (hwt : wt < 8) : 8 * f + wt < 2 ^ 64 := by
  omega

theorem decodeStep_scalar_bounds {pos : Nat} {data : List Nat} {f c : Nat} {v : PVal}
    (h : decodeStep pos data = .stepScalar f c v) : 2 ≤ c ∧ c ≤ data.length := by
  unfold decodeStep at h
  cases hu : Uvarint data with
  | truncated => rw [hu] at h; simp at h
  | overflow => rw [hu] at h; simp at h
  | ok tag n =>
    rw [hu] at h
    simp only [] at h
    have hn := Uvarint_ok_bounds hu
    by_cases h0 : tag % 8 = 0
    · rw [if_pos h0] at h
      cases hu2 : Uvarint (data.drop n) with
      | truncated => rw [hu2] at h; simp at h
      | overflow => rw [hu2] at h; simp at h
      | ok v2 m =>
        rw [hu2] at h
        simp only [] at h
        have hm := Uvarint_ok_bounds hu2
        simp only [List.length_drop] at hm
        cases h
        omega
    · rw [if_neg h0] at h
      by_cases h1 : tag % 8 = 1
      · rw [if_pos h1] at h
        by_cases hlen : (data.drop n).length < 8
        · rw [if_pos hlen] at h; simp at h
        · rw [if_neg hlen] at h
          simp only [List.length_drop] at hlen
          cases h
          omega
      · rw [if_neg h1] at h
        by_cases h2 : tag % 8 = 2
        · rw [if_pos h2] at h
          cases hu2 : Uvarint (data.drop n) with
          | truncated => rw [hu2] at h; simp at h
          | overflow => rw [hu2] at h; simp at h
          | ok len m =>
            rw [hu2] at h
            simp only [] at h
            split at h
            · simp at h
            · split at h
              · simp at h
              · simp at h
        · rw [if_neg h2] at h
          by_cases h5 : tag % 8 = 5
          · rw [if_pos h5] at h
            by_cases hlen : (data.drop n).length < 4
            · rw [if_pos hlen] at h; simp at h
            · rw [if_neg hlen] at h
              simp only [List.length_drop] at hlen
              cases h
              omega
          · rw [if_neg h5] at h; simp at h

theorem decodeStep_bytes_bounds {pos : Nat} {data : List Nat} {f c : Nat} {payload : List Nat}
    (h : decodeStep pos data = .stepBytes f c payload) :
    1 ≤ c ∧ payload.length + 2 ≤ data.length := by
  unfold decodeStep at h
  cases hu : Uvarint data with
  | truncated => rw [hu] at h; simp at h
  | overflow => rw [hu] at h; simp at h
  | ok tag n =>
    rw [hu] at h
    simp only [] at h
    have hn := Uvarint_ok_bounds hu
    by_cases h0 : tag % 8 = 0
    · rw [if_pos h0] at h
      cases hu2 : Uvarint (data.drop n) with
      | truncated => rw [hu2] at h; simp at h
      | overflow => rw [hu2] at h; simp at h
      | ok v2 m => rw [hu2] at h; simp only [] at h; simp at h
    · rw [if_neg h0] at h
      by_cases h1 : tag % 8 = 1
      · rw [if_pos h1] at h
        split at h <;> simp at h
      · rw [if_neg h1] at h
        by_cases h2 : tag % 8 = 2
        · rw [if_pos h2] at h
          cases hu2 : Uvarint (data.drop n) with
          | truncated => rw [hu2] at h; simp at h
          | overflow => rw [hu2] at h; simp at h
          | ok len m =>
            rw [hu2] at h
            simp only [] at h
            have hm := Uvarint_ok_bounds hu2
            simp only [List.length_drop] at hm
            split at h
            · simp at h
            · split at h
              · simp at h
              · cases h
                simp only [List.length_take, List.length_drop]
                omega
        · rw [if_neg h2] at h
          by_cases h5 : tag % 8 = 5
          · rw [if_pos h5] at h
            split at h <;> simp at h
          · rw [if_neg h5] at h; simp at h

theorem decodeLoopF_congr :
    ∀ (n : Nat) (data : List Nat), data.length ≤ n →
    ∀ (fuel fuel' pos : Nat) (acc : Msg), data.length ≤ fuel → data.length ≤ fuel' →
      decodeLoopF fuel pos data acc = decodeLoopF fuel' pos data acc := by
  intro n
  induction n using Nat.strong_induction_on with
  | _ n ih =>
    intro data hdn fuel fuel' pos acc h1 h2
    cases data with
    | nil => cases fuel <;> cases fuel' <;> rfl
    | cons b bs =>
      have hlen : 1 ≤ (b :: bs).length := by simp
      obtain ⟨a, rfl⟩ : ∃ a, fuel = a + 1 := ⟨fuel - 1, by simp at h1; omega⟩
      obtain ⟨a2, rfl⟩ : ∃ a2, fuel' = a2 + 1 := ⟨fuel' - 1, by simp at h2; omega⟩
      simp only [List.length_cons] at hdn h1 h2
      simp only [decodeLoopF]
      cases hstep : decodeStep pos (b :: bs) with
      | stepErr e => rfl
      | stepScalar f c v =>
        have hb := decodeStep_scalar_bounds hstep
        simp only [List.length_cons] at hb
        apply ih ((b :: bs).drop c).length ?_ _ le_rfl
        · simp only [List.length_drop, List.length_cons]; omega
        · simp only [List.length_drop, List.length_cons]; omega
        · simp only [List.length_drop, List.length_cons]; omega
      | stepBytes f c payload =>
        have hb := decodeStep_bytes_bounds hstep
        simp only [List.length_cons] at hb
        have hnested : decodeLoopF a 0 payload [] = decodeLoopF a2 0 payload [] := by
          apply ih payload.length ?_ _ le_rfl
          · omega
          · omega
          · omega
        simp only []
        rw [hnested]
        apply ih ((b :: bs).drop c).length ?_ _ le_rfl
        · simp only [List.length_drop, List.length_cons]; omega
        · simp only [List.length_drop, List.length_cons]; omega
        · simp only [List.length_drop, List.length_cons]; omega

theorem decodeStep_scalar_field {f : Nat} (pos u : Nat) (rest : List Nat)
    (hf : f < 2 ^ 61) (hu : u < 2 ^ 64) :
    decodeStep pos (writeTag f 0 ++ (putUvarint u ++ rest)) =
      .stepScalar f ((writeTag f 0).length + (putUvarint u).length) (.vint (i64 u)) := by
  rw [writeTag_eq 0 hf (by norm_num)]
  unfold decodeStep
  rw [Uvarint_putUvarint (tag_lt hf (by norm_num)) (putUvarint u ++ rest)]
  simp only []
  have hmod : (8 * f + 0) % 8 = 0 := by omega
  rw [if_pos hmod]
  rw [List.drop_left]
  rw [Uvarint_putUvarint hu rest]
  simp only []
  congr 1
  omega

theorem decodeStep_bytes_field (f pos : Nat) (p rest : List Nat)
    (hf : f < 2 ^ 61)
    (hbound : pos + (writeTag f 2 ++ (putUvarint p.length ++ (p ++ rest))).length < 2 ^ 63) :
    decodeStep pos (writeTag f 2 ++ (putUvarint p.length ++ (p ++ rest))) =
      .stepBytes f ((writeTag f 2).length + (putUvarint p.length).length + p.length) p := by
  have hp : p.length < 2 ^ 63 := by
    simp only [List.length_append] at hbound
    omega
  rw [writeTag_eq 2 hf (by norm_num)] at hbound ⊢
  unfold decodeStep
  rw [Uvarint_putUvarint (tag_lt hf (by norm_num)) (putUvarint p.length ++ (p ++ rest))]
  simp only []
  have hm0 : ¬ ((8 * f + 2) % 8 = 0) := by omega
  have hm1 : ¬ ((8 * f + 2) % 8 = 1) := by omega
  have hm2 : (8 * f + 2) % 8 = 2 := by omega
  rw [if_neg hm0, if_neg hm1, if_pos hm2]
  rw [List.drop_left]
  rw [Uvarint_putUvarint (lt_trans hp (by norm_num)) (p ++ rest)]
  simp only []
  rw [List.drop_left]
  have hi : i64 p.length = (p.length : Int) := by
    unfold i64
    rw [if_pos (by exact_mod_cast hp)]
  set q := pos + (putUvarint (8 * f + 2)).length + (putUvarint p.length).length with hq
  have hqb : (q : Int) + p.length < 2 ^ 63 := by
    simp only [List.length_append] at hbound
    have : q + p.length < 2 ^ 63 := by omega
    exact_mod_cast this
  have hwrap : wrap64 ((q : Int) + i64 p.length) = (q : Int) + p.length := by
    rw [hi]
    apply wrap64_eq_self
    · omega
    · exact hqb
  rw [hwrap]
  have hgt : ¬ ((q : Int) + p.length > (q : Int) + (p ++ rest).length) := by
    simp only [List.length_append]
    push_cast
    omega
  rw [if_neg hgt]
  have hlt : ¬ ((q : Int) + p.length < (q : Int)) := by
    omega
  rw [if_neg hlt]
  rw [List.take_left]
  congr 1
  omega

theorem decodeLoopF_nil (fuel pos : Nat) (acc : Msg) :
    decodeLoopF fuel pos [] acc = .ok acc := by
  cases fuel <;> rfl

theorem decodeLoopF_step_scalar {pos : Nat} {data : List Nat} {f c : Nat} {v : PVal}
    (fuel : Nat) (acc : Msg)
    (h : decodeStep pos data = .stepScalar f c v) (hfuel : data.length ≤ fuel) :
    decodeLoopF fuel pos data acc =
      decodeLoopF (data.drop c).length (pos + c) (data.drop c) (addToResult acc f v) := by
  have hb := decodeStep_scalar_bounds h
  cases data with
  | nil =>
    exfalso
    have : decodeStep pos ([] : List Nat) = .stepErr .truncatedInput := by
      unfold decodeStep
      simp [Uvarint, uvarintAux]
    rw [this] at h
    simp at h
  | cons b bs =>
    obtain ⟨a, rfl⟩ : ∃ a, fuel = a + 1 := ⟨fuel - 1, by simp at hfuel; omega⟩
    simp only [decodeLoopF]
    rw [h]
    simp only []
    apply decodeLoopF_congr ((b :: bs).drop c).length _ le_rfl
    · simp only [List.length_drop, List.length_cons] at hfuel hb ⊢
      omega
    · exact le_rfl

theorem decodeLoopF_step_bytes {pos : Nat} {data : List Nat} {f c : Nat} {payload : List Nat}
    (fuel : Nat) (acc : Msg)
    (h : decodeStep pos data = .stepBytes f c payload) (hfuel : data.length ≤ fuel) :
    decodeLoopF fuel pos data acc =
      decodeLoopF (data.drop c).length (pos + c) (data.drop c)
        (addToResult acc f (classify payload)) := by
  have hb := decodeStep_bytes_bounds h
  cases data with
  | nil =>
    exfalso
    have : decodeStep pos ([] : List Nat) = .stepErr .truncatedInput := by
      unfold decodeStep
      simp [Uvarint, uvarintAux]
    rw [this] at h
    simp at h
  | cons b bs =>
    obtain ⟨a, rfl⟩ : ∃ a, fuel = a + 1 := ⟨fuel - 1, by simp at hfuel; omega⟩
    simp only [decodeLoopF]
    rw [h]
    simp only []
    have hnested : decodeLoopF a 0 payload [] = DecodeMessage payload := by
      unfold DecodeMessage
      apply decodeLoopF_congr payload.length _ le_rfl
      · simp only [List.length_cons] at hfuel hb
        omega
      · exact le_rfl
    rw [hnested]
    have hclassify :
        (match DecodeMessage payload with
          | .ok nested =>
            if nested.length > 0 then PVal.vmsg nested
            else if isLikelyString payload then PVal.vstr payload
            else PVal.vbytes payload
          | .error _ =>
            if isLikelyString payload then PVal.vstr payload
            else PVal.vbytes payload) = classify payload := by
      unfold classify
      rfl
    rw [hclassify]
    apply decodeLoopF_congr ((b :: bs).drop c).length _ le_rfl
    · simp only [List.length_drop, List.length_cons] at hfuel hb ⊢
      omega
    · exact le_rfl

theorem putUvarint_length_le (x : Nat) : (putUvarint x).length ≤ 11 :=
  putUvarintF_length_le 10 _

/-! ## Claim theorems -/

/-- Claim C2 (code bug): the cookie capture in `googleProxyHandler` is a
check-then-act race, not a mutex-guarded compare-and-set.  In the
interleaving where both handlers pass their `IsCaptured` check before
either calls `SetToken`, both proceed: two background exchanges are
dispatched and the second token overwrites the first, contradicting the
claimed "exactly one capture … exactly one exchange … the other capture
attempt is a no-op".  (The flag itself still makes only one
`false → true` transition, and a non-interleaved schedule dispatches
exactly once.) -/
theorem capture_race_dispatches_two_exchanges :
    (raceRun [1] [2] [true, false, true, false]).dispatches = 2 ∧
    (raceRun [1] [2] [true, false, true, false]).transitions = 1 ∧
    (raceRun [1] [2] [true, false, true, false]).st.oauthToken = [2] ∧
    (raceRun [1] [2] [true, true, false, false]).dispatches = 1 := by
  decide

/-- Claim C4 (code bug): `DecodeMessage` is not total.  When a
length-delimited field declares a length of `2 ^ 63`, Go's `int(length)`
is negative, `pos+int(length) > len(data)` is vacuously false, and the
slice expression `data[pos:pos+int(length)]` panics instead of returning
`TruncatedInput`.  The companion conjuncts show the behaviour the claim
describes on genuinely truncated inputs: a declared length running past
the buffer, a buffer ending mid-varint, and a varint that never
terminates. -/
theorem decode_declared_length_overflow_panics :
    DecodeMessage ([10] ++ List.replicate 9 128 ++ [1]) = .error .panicSliceBounds ∧
    DecodeMessage [10, 5] = .error .truncatedInput ∧
    DecodeMessage [128] = .error .truncatedInput ∧
    DecodeMessage (List.replicate 11 128) = .error .malformedVarint :=
  ⟨rfl, rfl, rfl, rfl⟩

/-- Claim C6 counterexample: the classification uses strict length tests
(`len > 7`, `len > 5`), so the bare prefixes themselves — strings that do
have the prefix — classify as "unknown", refuting "every string with
prefix … classifies as …". -/
theorem tokenType_bare_prefix_unknown :
    tokenType (ascii "aas_et/") = ascii "unknown" ∧
    ascii "aas_et/" <+: ascii "aas_et/" ∧
    tokenType (ascii "ya29.") = ascii "unknown" ∧
    ascii "ya29." <+: ascii "ya29." :=
  ⟨rfl, ⟨[], by simp⟩, rfl, ⟨[], by simp⟩⟩

/-- Claim C6 (amended): classification is an exact-prefix function except
at the bare prefixes: a string *strictly longer* than "aas_et/" with that
prefix classifies "aes", a string strictly longer than "ya29." with that
prefix (and without the first prefix) classifies "oauth2", and everything
else — including the bare prefix strings — classifies "unknown"; the
match is on a literal leading slice, never a substring. -/
theorem tokenType_strict_prefix_classification (s : List Nat) :
    (ascii "aas_et/" <+: s → s ≠ ascii "aas_et/" → tokenType s = ascii "aes") ∧
    (¬ ascii "aas_et/" <+: s → ascii "ya29." <+: s → s ≠ ascii "ya29." →
      tokenType s = ascii "oauth2") ∧
    ((¬ ascii "aas_et/" <+: s ∨ s = ascii "aas_et/") →
     (¬ ascii "ya29." <+: s ∨ s = ascii "ya29.") →
      tokenType s = ascii "unknown") := by
  have la : (ascii "aas_et/").length = 7 := by decide
  have ly : (ascii "ya29.").length = 5 := by decide
  have haas : ∀ h1 : ascii "aas_et/" <+: s, s ≠ ascii "aas_et/" →
      s.length > 7 ∧ s.take 7 = ascii "aas_et/" := by
    intro h1 h2
    have ht : s.take 7 = ascii "aas_et/" := by
      have := (List.prefix_iff_eq_take.mp h1)
      rw [la] at this
      exact this.symm
    refine ⟨?_, ht⟩
    have hle : 7 ≤ s.length := by
      have := h1.length_le
      omega
    rcases Nat.lt_or_ge 7 s.length with hlt | hge
    · exact hlt
    · exfalso
      apply h2
      have : s.take 7 = s := by
        apply List.take_of_length_le
        omega
      rw [← this, ht]
  have hya : ∀ h1 : ascii "ya29." <+: s, s ≠ ascii "ya29." →
      s.length > 5 ∧ s.take 5 = ascii "ya29." := by
    intro h1 h2
    have ht : s.take 5 = ascii "ya29." := by
      have := (List.prefix_iff_eq_take.mp h1)
      rw [ly] at this
      exact this.symm
    refine ⟨?_, ht⟩
    have hle : 5 ≤ s.length := by
      have := h1.length_le
      omega
    rcases Nat.lt_or_ge 5 s.length with hlt | hge
    · exact hlt
    · exfalso
      apply h2
      have : s.take 5 = s := by
        apply List.take_of_length_le
        omega
      rw [← this, ht]
  have haas_not : (¬ ascii "aas_et/" <+: s ∨ s = ascii "aas_et/") →
      ¬ (s.length > 7 ∧ s.take 7 = ascii "aas_et/") := by
    rintro (hna | hbare) ⟨hlen, htake⟩
    · exact hna (htake ▸ List.take_prefix 7 s)
    · rw [hbare] at hlen
      rw [la] at hlen
      omega
  have hya_not : (¬ ascii "ya29." <+: s ∨ s = ascii "ya29.") →
      ¬ (s.length > 5 ∧ s.take 5 = ascii "ya29.") := by
    rintro (hna | hbare) ⟨hlen, htake⟩
    · exact hna (htake ▸ List.take_prefix 5 s)
    · rw [hbare] at hlen
      rw [ly] at hlen
      omega
  refine ⟨?_, ?_, ?_⟩
  · intro h1 h2
    unfold tokenType
    rw [if_pos (haas h1 h2)]
  · intro h0 h1 h2
    unfold tokenType
    rw [if_neg (haas_not (Or.inl h0)), if_pos (hya h1 h2)]
  · intro h0 h1
    unfold tokenType
    rw [if_neg (haas_not h0), if_neg (hya_not h1)]

/-- Witness for the amended C6 theorem at concrete strings. -/
theorem tokenType_strict_prefix_classification_witness :
    tokenType (ascii "aas_et/x") = ascii "aes" ∧
    tokenType (ascii "ya29.x") = ascii "oauth2" ∧
    tokenType (ascii "zz") = ascii "unknown" :=
  ⟨(tokenType_strict_prefix_classification (ascii "aas_et/x")).1
      (⟨ascii "x", by decide⟩) (by decide),
   (tokenType_strict_prefix_classification (ascii "ya29.x")).2.1
      (by decide) (⟨ascii "x", by decide⟩) (by decide),
   (tokenType_strict_prefix_classification (ascii "zz")).2.2
      (Or.inl (by decide)) (Or.inl (by decide))⟩

/-- Claim C10: `FetchServiceToken` refuses to run — returning the
no-master-token error before any form is built or request sent — whenever
the stored master token *or* the stored account email is empty, because
`Config.HasMasterToken` requires both to be non-empty. -/
theorem fetchServiceToken_gate_requires_master_and_email
    (cfg : Config) (scope appPackage appSig : List Nat)
    (h : cfg.masterToken = [] ∨ cfg.email = []) :
    FetchServiceToken cfg scope appPackage appSig = .error .noMasterToken := by
  unfold FetchServiceToken Config.HasMasterToken
  rcases h with h | h <;> simp [h]

/-- Witness for C10 at a concrete configuration. -/
theorem fetchServiceToken_gate_requires_master_and_email_witness :
    FetchServiceToken { masterToken := [], email := ascii "x@y.com" }
      (ascii "scope") [] [] = .error .noMasterToken :=
  fetchServiceToken_gate_requires_master_and_email _ _ _ _ (Or.inl rfl)

/-- Claim C8: when the background exchange fails — request error or
non-200 (both surfaced as an error from `ExchangeOAuthForMaster`), or an
empty token in a 200 response — `exchangeToken` leaves the config's
`MasterToken` and `Email` untouched and only writes the proxy state's
result fields (`email`/`error`), never the captured flag or token. -/
theorem failed_exchange_preserves_credentials
    (cfg : Config) (st : ProxyState) (fetched : Except AuthErr AuthResponse) (saveOk : Bool)
    (h : (∃ e, fetched = .error e) ∨
         (∃ r, fetched = .ok r ∧ r.token = [] ∧ r.auth = [])) :
    (exchangeToken cfg st fetched saveOk).1 = cfg ∧
    (exchangeToken cfg st fetched saveOk).2.captured = st.captured ∧
    (exchangeToken cfg st fetched saveOk).2.oauthToken = st.oauthToken := by
  rcases h with ⟨e, rfl⟩ | ⟨r, rfl, ht, ha⟩
  · simp [exchangeToken, ProxyState.SetResult]
  · simp [exchangeToken, ht, ha, ProxyState.SetResult]

/-- Witness for C8 at concrete failure outcomes. -/
theorem failed_exchange_preserves_credentials_witness :
    (exchangeToken {} {} (.error (.authFailed 403 [])) true).1 = ({} : Config) ∧
    (exchangeToken {} {} (.ok {}) true).1 = ({} : Config) :=
  ⟨(failed_exchange_preserves_credentials {} {} _ true (Or.inl ⟨_, rfl⟩)).1,
   (failed_exchange_preserves_credentials {} {} (.ok {}) true
      (Or.inr ⟨{}, rfl, rfl, rfl⟩)).1⟩

/-- Claim C5 counterexample: a 200 checkin response carrying a non-zero
field 7 but *no field 8* succeeds with `SecurityToken = 0` — the code
never validates the security token, refuting "on every successful return
the Result carries … a non-zero security token".  The input is the wire
encoding of field 7 (fixed64) = 5. -/
theorem checkin_succeeds_with_zero_security_token :
    Checkin [57, 5, 0, 0, 0, 0, 0, 0, 0] =
      .ok { androidID := 5, securityToken := 0 } := rfl

/-- Claim C5 (amended): `Checkin` fails with the missing-device-id error
whenever decoded field 7 is absent, zero, or of an unexpected shape
(`extractU64` then yields 0), and every successful return carries a
non-zero `AndroidID`; no guarantee is made about `SecurityToken`, which
is whatever field 8 held and may be zero. -/
theorem checkin_androidid_guarantees :
    (∀ (bytes : List Nat) (r : CheckinResult), Checkin bytes = .ok r → r.androidID ≠ 0) ∧
    (∀ (bytes : List Nat) (d : Msg), DecodeMessage bytes = .ok d →
      extractU64 (d.lookup 7) = 0 → Checkin bytes = .error .missingAndroidId) := by
  constructor
  · intro bytes r h
    unfold Checkin at h
    cases hd : DecodeMessage bytes with
    | error e => rw [hd] at h; simp at h
    | ok d =>
      rw [hd] at h
      simp only [] at h
      by_cases hz : extractU64 (d.lookup 7) = 0
      · simp [hz] at h
      · simp only [hz, if_neg, if_false] at h
        cases h
        exact hz
  · intro bytes d hd hz
    unfold Checkin
    rw [hd]
    simp [hz]

/-- Witness for the amended C5 theorem. -/
theorem checkin_androidid_guarantees_witness :
    ({ androidID := 5, securityToken := 0 } : CheckinResult).androidID ≠ 0 ∧
    Checkin [] = .error .missingAndroidId :=
  ⟨checkin_androidid_guarantees.1 [57, 5, 0, 0, 0, 0, 0, 0, 0] _ rfl,
   checkin_androidid_guarantees.2 [] [] rfl rfl⟩

/-- Claim C3 counterexample: `doAuthRequest` itself does not enforce the
empty-token invariant — a 200 response without an `Auth` line parses to
an empty `Auth` field and is returned *without error*, so the exchange
operations `ExchangeOAuthForMaster`/`FetchServiceToken` succeed at the
function level despite the empty primary token. -/
theorem doAuthRequest_ok_with_empty_auth :
    (doAuthRequest 200 (ascii "Email=x@y.com")).2 = none ∧
    (doAuthRequest 200 (ascii "Email=x@y.com")).1.auth = [] ∧
    (doAuthRequest 200 (ascii "Email=x@y.com")).1.email = ascii "x@y.com" := by
  decide

/-- Claim C3 (amended): the empty-primary-token check lives in the
callers, not in the exchange functions: the `/api/token` handler turns a
fetched response whose `Auth` is empty into a 500 "empty token in
response" failure even though `FetchServiceToken` reported success.  (The
proxy's exchange path analogously fails only when both `Token` and
`Auth` are empty.) -/
theorem tokenHandler_rejects_empty_auth
    (cfgEmail : List Nat) (resp : AuthResponse) (h : resp.auth = []) :
    tokenHandlerTail cfgEmail (.ok resp) =
      (500, { error := ascii "empty token in response" }) := by
  simp [tokenHandlerTail, h]

/-- Witness for the amended C3 theorem. -/
theorem tokenHandler_rejects_empty_auth_witness :
    tokenHandlerTail [] (.ok {}) = (500, { error := ascii "empty token in response" }) :=
  tokenHandler_rejects_empty_auth [] {} rfl

/-- Claim C9: decoding the empty byte sequence yields the empty mapping
with no error, and a length-delimited field with a zero-length payload
decodes to the empty text string — the nested-message attempt on the
empty payload yields an empty mapping, and `isLikelyString` accepts empty
input — never to a nested message and never to an error. -/
theorem decode_empty_and_zero_length_payload :
    DecodeMessage [] = .ok [] ∧
    ∀ f : Nat, f < 2 ^ 61 →
      DecodeMessage (writeTag f 2 ++ [0]) = .ok [(f, .vstr [])] := by
  constructor
  · rfl
  · intro f hf
    have hshape : writeTag f 2 ++ [0] =
        writeTag f 2 ++ (putUvarint (List.length ([] : List Nat)) ++
          (([] : List Nat) ++ [])) := by
      simp only [List.length_nil, List.append_nil]
      rfl
    rw [hshape]
    unfold DecodeMessage
    have hbound : 0 + (writeTag f 2 ++ (putUvarint (List.length ([] : List Nat)) ++
        (([] : List Nat) ++ []))).length < 2 ^ 63 := by
      simp only [List.length_append, List.length_nil]
      have h1 : (writeTag f 2).length ≤ 11 := putUvarint_length_le _
      have h2 : (putUvarint 0).length ≤ 11 := putUvarint_length_le _
      omega
    have hstep := decodeStep_bytes_field f 0 [] [] hf hbound
    have hloop := decodeLoopF_step_bytes
      (writeTag f 2 ++ (putUvarint (List.length ([] : List Nat)) ++
        (([] : List Nat) ++ []))).length
      [] hstep le_rfl
    rw [hloop]
    have hc : (writeTag f 2).length + (putUvarint (List.length ([] : List Nat))).length +
        (List.length ([] : List Nat)) =
        (writeTag f 2 ++ (putUvarint (List.length ([] : List Nat)) ++
          (([] : List Nat) ++ []))).length := by
      simp
    rw [hc, List.drop_length]
    rw [decodeLoopF_nil]
    rfl

/-- Witness for C9 at field number 1: bytes `[0x0A, 0x00]`. -/
theorem decode_empty_and_zero_length_payload_witness :
    DecodeMessage [10, 0] = .ok [(1, .vstr [])] := by
  have h := decode_empty_and_zero_length_payload.2 1 (by norm_num)
  simpa using h

/-! ## Scalar-message round trip

The round-trip claim quantifies over messages of *scalar* values
(integers, unsigned 64-bit integers, booleans, text, byte strings).  The
reference functions below restate, for scalar values only, which single
wire field the encoder emits; `encodeGoF_fields_scalar` proves them equal
to the encoder on such messages. -/

/-- Scalar run-time shapes (the claim's "scalar values"). -/
def isScalar : GoVal → Bool
  | .gint _ => true
  | .guint64 _ => true
  | .gbool _ => true
  | .gstr _ => true
  | .gbytes _ => true
  | _ => false

/-- Intrinsic Go typing bounds of a scalar value: a Go `int64` lies in
`[-2 ^ 63, 2 ^ 63)` and a Go `uint64` below `2 ^ 64`. -/
def valWF : GoVal → Bool
  | .gint i => decide (-(2 ^ 63) ≤ i ∧ i < 2 ^ 63)
  | .guint64 u => decide (u < 2 ^ 64)
  | _ => true

/-- The wire payload the encoder chooses for a *scalar* value under an
optional field definition: `inl u` is a varint field of value `u`, `inr p`
a length-delimited field of payload `p`.  (Non-scalar values are not in
the domain of the round-trip claim; this reference function rejects
them.) -/
def scalarPayload : Option FieldDef → GoVal → Except EncErr (Sum Nat (List Nat))
  | some fd, v =>
    match fd.type with
    | .tInt =>
      match toInt64 v with
      | .error e => .error e
      | .ok i => .ok (.inl (toUint64 i))
    | .tBool =>
      match v with
      | .gbool b => .ok (.inl (if b then 1 else 0))
      | _ => .error .schemaMismatch
    | .tString =>
      match v with
      | .gstr s => .ok (.inr s)
      | _ => .error .schemaMismatch
    | .tBytes =>
      match v with
      | .gbytes b => .ok (.inr b)
      | .gstr s => .ok (.inr s)
      | _ => .error .schemaMismatch
    | .tMessage => .error .schemaMismatch
  | none, v =>
    match v with
    | .gint i => .ok (.inl (toUint64 i))
    | .guint64 u => .ok (.inl u)
    | .gbool b => .ok (.inl (if b then 1 else 0))
    | .gstr s => .ok (.inr s)
    | .gbytes b => .ok (.inr b)
    | _ => .error .unknownType

/-- Bytes of one wire field for a given payload. -/
def payloadBytes (f : Nat) : Sum Nat (List Nat) → List Nat
  | .inl u => writeTag f 0 ++ putUvarint u
  | .inr p => writeTag f 2 ++ (putUvarint p.length ++ p)

/-- What the schema-less decoder turns that one wire field back into. -/
def payloadDecoded : Sum Nat (List Nat) → PVal
  | .inl u => .vint (i64 u)
  | .inr p => classify p

/-- The decoded image of one scalar field of the message (junk when the
encoder would reject the value; the round-trip theorem only evaluates it
on accepted fields). -/
def decodedOf (sch : MessageType) (k : Nat) (v : GoVal) : PVal :=
  match scalarPayload (sch.lookup k) v with
  | .ok pl => payloadDecoded pl
  | .error _ => .vint 0

/-- Reference encoding of a scalar-valued field list: concatenation of one
wire field per entry. -/
def refFields (sch : MessageType) : GoMsg → Except EncErr (List Nat)
  | [] => .ok []
  | (k, v) :: rest =>
    match scalarPayload (sch.lookup k) v with
    | .error e => .error e
    | .ok pl =>
      match refFields sch rest with
      | .error e => .error e
      | .ok bs => .ok (payloadBytes k pl ++ bs)

theorem encodeGoF_auto_scalar (k : Nat) (v : GoVal) (fuel : Nat)
    (hs : isScalar v = true) (hfuel : 1 ≤ fuel) :
    encodeGoF fuel (.auto k v) =
      match scalarPayload none v with
      | .ok pl => .ok (payloadBytes k pl)
      | .error e => .error e := by
  obtain ⟨f, rfl⟩ : ∃ f, fuel = f + 1 := ⟨fuel - 1, by omega⟩
  cases v <;> simp_all [encodeGoF, scalarPayload, payloadBytes, isScalar, List.append_assoc]

theorem encodeGoF_typed_scalar (k : Nat) (v : GoVal) (fd : FieldDef) (fuel : Nat)
    (hs : isScalar v = true) (hfuel : 1 ≤ fuel) :
    encodeGoF fuel (.typed k v fd) =
      match scalarPayload (some fd) v with
      | .ok pl => .ok (payloadBytes k pl)
      | .error e => .error e := by
  obtain ⟨f, rfl⟩ : ∃ f, fuel = f + 1 := ⟨fuel - 1, by omega⟩
  cases hfd : fd.type <;>
    cases v <;>
      simp_all [encodeGoF, scalarPayload, payloadBytes, toInt64, isScalar,
        List.append_assoc]

theorem encodeGoF_items_single (k : Nat) (v : GoVal) (fd : FieldDef) (fuel : Nat)
    (hs : isScalar v = true) (hfuel : 2 ≤ fuel) :
    encodeGoF fuel (.items k [v] fd) =
      match scalarPayload (some fd) v with
      | .ok pl => .ok (payloadBytes k pl)
      | .error e => .error e := by
  obtain ⟨f, rfl⟩ : ∃ f, fuel = f + 1 := ⟨fuel - 1, by omega⟩
  simp only [encodeGoF]
  rw [encodeGoF_typed_scalar k v fd f hs (by omega)]
  obtain ⟨g, rfl⟩ : ∃ g, f = g + 1 := ⟨f - 1, by omega⟩
  cases hpl : scalarPayload (some fd) v with
  | error e => rfl
  | ok pl => simp [encodeGoF]

theorem encodeGoF_fields_scalar :
    ∀ (items : GoMsg) (sch : MessageType) (fuel : Nat),
      (∀ p ∈ items, isScalar p.2 = true) → 3 * items.length + 1 ≤ fuel →
      encodeGoF fuel (.fields items sch) = refFields sch items := by
  intro items
  induction items with
  | nil =>
    intro sch fuel _ hfuel
    obtain ⟨f, rfl⟩ : ∃ f, fuel = f + 1 := ⟨fuel - 1, by omega⟩
    rfl
  | cons kv rest ih =>
    intro sch fuel hscalar hfuel
    obtain ⟨k, v⟩ := kv
    obtain ⟨f, rfl⟩ : ∃ f, fuel = f + 1 := ⟨fuel - 1, by simp at hfuel; omega⟩
    simp only [List.length_cons] at hfuel
    have hv : isScalar v = true := hscalar (k, v) (by simp)
    have hrest : ∀ p ∈ rest, isScalar p.2 = true := fun p hp => hscalar p (by simp [hp])
    have hlen : 3 * rest.length + 1 ≤ f := by omega
    cases hlk : sch.lookup k with
    | none =>
      simp only [encodeGoF, hlk]
      rw [encodeGoF_auto_scalar k v f hv (by omega), ih sch f hrest hlen]
      simp only [refFields, hlk]
      cases scalarPayload none v <;> cases refFields sch rest <;> rfl
    | some fd =>
      by_cases hrep : fd.repeated = true
      · cases v with
        | gmap m => simp [isScalar] at hv
        | glist l => simp [isScalar] at hv
        | gint i =>
          simp only [encodeGoF, hlk, hrep, if_true]
          rw [encodeGoF_items_single k _ fd f (by rfl) (by omega), ih sch f hrest hlen]
          simp only [refFields, hlk]
          cases scalarPayload (some fd) (GoVal.gint i) <;> cases refFields sch rest <;> rfl
        | guint64 u =>
          simp only [encodeGoF, hlk, hrep, if_true]
          rw [encodeGoF_items_single k _ fd f (by rfl) (by omega), ih sch f hrest hlen]
          simp only [refFields, hlk]
          cases scalarPayload (some fd) (GoVal.guint64 u) <;> cases refFields sch rest <;> rfl
        | gbool b =>
          simp only [encodeGoF, hlk, hrep, if_true]
          rw [encodeGoF_items_single k _ fd f (by rfl) (by omega), ih sch f hrest hlen]
          simp only [refFields, hlk]
          cases scalarPayload (some fd) (GoVal.gbool b) <;> cases refFields sch rest <;> rfl
        | gstr s =>
          simp only [encodeGoF, hlk, hrep, if_true]
          rw [encodeGoF_items_single k _ fd f (by rfl) (by omega), ih sch f hrest hlen]
          simp only [refFields, hlk]
          cases scalarPayload (some fd) (GoVal.gstr s) <;> cases refFields sch rest <;> rfl
        | gbytes b =>
          simp only [encodeGoF, hlk, hrep, if_true]
          rw [encodeGoF_items_single k _ fd f (by rfl) (by omega), ih sch f hrest hlen]
          simp only [refFields, hlk]
          cases scalarPayload (some fd) (GoVal.gbytes b) <;> cases refFields sch rest <;> rfl
      · simp only [encodeGoF, hlk]
        rw [if_neg hrep]
        rw [encodeGoF_typed_scalar k v fd f hv (by omega), ih sch f hrest hlen]
        simp only [refFields, hlk]
        cases scalarPayload (some fd) v <;> cases refFields sch rest <;> rfl

theorem scalarPayload_inl_lt {d : Option FieldDef} {v : GoVal} {u : Nat}
    (hwf : valWF v = true) (h : scalarPayload d v = .ok (.inl u)) : u < 2 ^ 64 := by
  have hg : ∀ b : Bool, (if b then (1 : Nat) else 0) < 2 ^ 64 := by
    intro b; cases b <;> norm_num
  cases d with
  | none =>
    cases v <;> simp only [scalarPayload] at h <;> cases h
    · exact toUint64_lt _
    · simp only [valWF, decide_eq_true_eq] at hwf; omega
    · exact hg _
  | some fd =>
    cases hft : fd.type <;> cases v <;>
      simp only [scalarPayload, hft, toInt64] at h <;> cases h
    · exact toUint64_lt _
    · exact toUint64_lt _
    · exact toUint64_lt _
    · exact hg _

theorem decode_refFields :
    ∀ (items : GoMsg) (sch : MessageType) (bs : List Nat),
      (∀ p ∈ items, isScalar p.2 = true) →
      (∀ p ∈ items, p.1 < 2 ^ 61) →
      (∀ p ∈ items, valWF p.2 = true) →
      refFields sch items = .ok bs →
      ∀ (pos : Nat) (acc : Msg), pos + bs.length < 2 ^ 63 →
        decodeLoopF bs.length pos bs acc =
          .ok (items.foldl (fun a kv => addToResult a kv.1 (decodedOf sch kv.1 kv.2)) acc) := by
  intro items
  induction items with
  | nil =>
    intro sch bs _ _ _ henc pos acc _
    unfold refFields at henc
    cases henc
    exact decodeLoopF_nil _ _ _
  | cons kv rest ih =>
    intro sch bs hscalar hkeys hwf henc pos acc hpos
    obtain ⟨k, v⟩ := kv
    unfold refFields at henc
    cases hpl : scalarPayload (sch.lookup k) v with
    | error e => rw [hpl] at henc; simp at henc
    | ok pl =>
      rw [hpl] at henc
      cases hrest : refFields sch rest with
      | error e => rw [hrest] at henc; simp at henc
      | ok bs2 =>
        rw [hrest] at henc
        simp only [Except.ok.injEq] at henc
        subst henc
        have hk : k < 2 ^ 61 := hkeys (k, v) (by simp)
        have hv : valWF v = true := hwf (k, v) (by simp)
        have hdec : decodedOf sch k v = payloadDecoded pl := by
          simp [decodedOf, hpl]
        simp only [List.foldl_cons]
        rw [hdec]
        cases pl with
        | inl u =>
          have hu : u < 2 ^ 64 := scalarPayload_inl_lt hv hpl
          have hshape : payloadBytes k (.inl u) ++ bs2 =
              writeTag k 0 ++ (putUvarint u ++ bs2) := by
            simp [payloadBytes, List.append_assoc]
          rw [hshape] at hpos ⊢
          have hstep := decodeStep_scalar_field pos u bs2 hk hu
          have hloop := decodeLoopF_step_scalar
            (writeTag k 0 ++ (putUvarint u ++ bs2)).length acc
            hstep le_rfl
          rw [hloop]
          have hdrop : (writeTag k 0 ++ (putUvarint u ++ bs2)).drop
              ((writeTag k 0).length + (putUvarint u).length) = bs2 := by
            rw [← List.append_assoc, ← List.length_append, List.drop_left]
          rw [hdrop]
          have hpos2 : pos + ((writeTag k 0).length + (putUvarint u).length) + bs2.length
              < 2 ^ 63 := by
            simp only [List.length_append] at hpos
            omega
          exact ih sch bs2 (fun p hp => hscalar p (by simp [hp]))
            (fun p hp => hkeys p (by simp [hp])) (fun p hp => hwf p (by simp [hp]))
            hrest _ _ hpos2
        | inr p =>
          have hshape : payloadBytes k (.inr p) ++ bs2 =
              writeTag k 2 ++ (putUvarint p.length ++ (p ++ bs2)) := by
            simp [payloadBytes, List.append_assoc]
          rw [hshape] at hpos ⊢
          have hstep := decodeStep_bytes_field k pos p bs2 hk hpos
          have hloop := decodeLoopF_step_bytes
            (writeTag k 2 ++ (putUvarint p.length ++ (p ++ bs2))).length
            acc hstep le_rfl
          rw [hloop]
          have hdrop : (writeTag k 2 ++ (putUvarint p.length ++ (p ++ bs2))).drop
              ((writeTag k 2).length + (putUvarint p.length).length + p.length) = bs2 := by
            rw [← List.append_assoc, ← List.append_assoc, ← List.length_append,
              ← List.length_append, List.drop_left]
          rw [hdrop]
          have hpos2 : pos + ((writeTag k 2).length + (putUvarint p.length).length +
              p.length) + bs2.length < 2 ^ 63 := by
            simp only [List.length_append] at hpos
            omega
          exact ih sch bs2 (fun q hq => hscalar q (by simp [hq]))
            (fun q hq => hkeys q (by simp [hq])) (fun q hq => hwf q (by simp [hq]))
            hrest _ _ hpos2

theorem lookup_append {α : Type} (l1 l2 : List (Nat × α)) (k : Nat) :
    (l1 ++ l2).lookup k = ((l1.lookup k).or (l2.lookup k)) := by
  induction l1 with
  | nil => simp [List.lookup]
  | cons kv t ih =>
    obtain ⟨k1, v1⟩ := kv
    by_cases hk : k = k1
    · simp [List.lookup, hk]
    · have hbeq : (k == k1) = false := by simp [hk]
      simp [List.lookup, hbeq, ih]

theorem lookup_mem {α : Type} :
    ∀ {l : List (Nat × α)} {k : Nat} {v : α}, l.lookup k = some v → (k, v) ∈ l := by
  intro l
  induction l with
  | nil => intro k v h; simp [List.lookup] at h
  | cons kv t ih =>
    intro k v h
    obtain ⟨k1, v1⟩ := kv
    by_cases hk : k = k1
    · subst hk
      simp [List.lookup] at h
      simp [h]
    · have hbeq : (k == k1) = false := by simp [hk]
      simp [List.lookup, hbeq] at h
      exact List.mem_cons_of_mem _ (ih h)

theorem foldl_addToResult_map (g : Nat → GoVal → PVal) :
    ∀ (items : GoMsg) (acc : Msg),
      (items.map Prod.fst).Nodup → (∀ p ∈ items, acc.lookup p.1 = none) →
      items.foldl (fun a kv => addToResult a kv.1 (g kv.1 kv.2)) acc =
        acc ++ items.map (fun kv => (kv.1, g kv.1 kv.2)) := by
  intro items
  induction items with
  | nil => intro acc _ _; simp
  | cons kv t ih =>
    intro acc hnd hacc
    obtain ⟨k, v⟩ := kv
    have hk : acc.lookup k = none := hacc (k, v) (by simp)
    have hstep : addToResult acc k (g k v) = acc ++ [(k, g k v)] := by
      unfold addToResult
      rw [hk]
    simp only [List.foldl_cons, hstep]
    have hnd2 : (t.map Prod.fst).Nodup := by
      simp only [List.map_cons, List.nodup_cons] at hnd
      exact hnd.2
    have hknotin : k ∉ t.map Prod.fst := by
      simp only [List.map_cons, List.nodup_cons] at hnd
      exact hnd.1
    have hacc2 : ∀ p ∈ t, (acc ++ [(k, g k v)]).lookup p.1 = none := by
      intro p hp
      rw [lookup_append]
      have h1 : acc.lookup p.1 = none := hacc p (by simp [hp])
      have h2 : ([(k, g k v)] : Msg).lookup p.1 = none := by
        have : p.1 ≠ k := by
          intro hcon
          exact hknotin (hcon ▸ List.mem_map_of_mem Prod.fst hp)
        have hbeq : (p.1 == k) = false := by simp [this]
        simp [List.lookup, hbeq]
      rw [h1, h2]
      rfl
    rw [ih _ hnd2 hacc2]
    simp

theorem lookup_map_value (g : Nat → GoVal → PVal) :
    ∀ (items : GoMsg) (k : Nat),
      (items.map (fun kv => (kv.1, g kv.1 kv.2))).lookup k =
        (items.lookup k).map (g k) := by
  intro items
  induction items with
  | nil => intro k; simp [List.lookup]
  | cons kv t ih =>
    intro k
    obtain ⟨k1, v1⟩ := kv
    by_cases hk : k = k1
    · subst hk
      simp [List.lookup]
    · have hbeq : (k == k1) = false := by simp [hk]
      simp [List.lookup, hbeq, ih]

theorem lookup_of_perm {l l' : GoMsg} (hperm : l.Perm l')
    (hnd : (l.map Prod.fst).Nodup) (k : Nat) : l.lookup k = l'.lookup k := by
  induction hperm with
  | nil => rfl
  | cons x h ih =>
    obtain ⟨k1, v1⟩ := x
    by_cases hk : k = k1
    · simp [List.lookup, hk]
    · have hbeq : (k == k1) = false := by simp [hk]
      simp only [List.map_cons, List.nodup_cons] at hnd
      simp [List.lookup, hbeq, ih hnd.2]
  | swap x y l =>
    obtain ⟨k1, v1⟩ := x
    obtain ⟨k2, v2⟩ := y
    simp only [List.map_cons, List.nodup_cons, List.mem_cons] at hnd
    have hne : k2 ≠ k1 := fun hcon => hnd.1 (Or.inl hcon)
    by_cases h1 : k = k1
    · subst h1
      have hbeq : (k == k2) = false := by
        have hx : ¬ k = k2 := fun hcon => hne hcon.symm
        simp [hx]
      simp [List.lookup, hbeq]
    · by_cases h2 : k = k2
      · subst h2
        have hbeq : (k == k1) = false := by simp [h1]
        simp [List.lookup, hbeq]
      · have hbeq1 : (k == k1) = false := by simp [h1]
        have hbeq2 : (k == k2) = false := by simp [h2]
        simp [List.lookup, hbeq1, hbeq2]
  | trans p1 p2 ih1 ih2 =>
    rw [ih1 hnd, ih2 (((p1.map Prod.fst).nodup_iff).mp hnd)]

theorem msize_pos (v : GoVal) : 1 ≤ v.msize := by
  cases v <;> simp [GoVal.msize]

theorem msizePairs_ge (m : GoMsg) : 2 * m.length + 1 ≤ msizePairs m := by
  induction m with
  | nil => simp [msizePairs]
  | cons kv t ih =>
    obtain ⟨k, v⟩ := kv
    have := msize_pos v
    simp only [msizePairs, List.length_cons]
    omega

/-- Equivalence of an original scalar value with its decoded image, as the
round-trip claim states it: exact recovery (modulo the Go `interface{}`
widenings: a bool becomes the integer 0/1, a `uint64` its signed
reinterpretation, text and raw bytes carry the same byte content), except
that a text or byte payload that itself parses as a valid non-empty
nested message decodes as that nested message — the documented
schema-less heuristic ambiguity. -/
def ValEquiv : GoVal → PVal → Prop
  | .gint i, w => w = .vint i
  | .guint64 u, w => w = .vint (i64 u)
  | .gbool b, w => w = .vint (if b then 1 else 0)
  | .gstr s, w =>
    w = .vstr s ∨ w = .vbytes s ∨
      ∃ n, DecodeMessage s = .ok n ∧ n ≠ [] ∧ w = .vmsg n
  | .gbytes s, w =>
    w = .vbytes s ∨ w = .vstr s ∨
      ∃ n, DecodeMessage s = .ok n ∧ n ≠ [] ∧ w = .vmsg n
  | _, _ => False

/-- Field-wise equivalence of the original message and the decoded map at
one key: both absent, or both present with equivalent values. -/
def FieldEquiv : Option GoVal → Option PVal → Prop
  | none, none => True
  | some v, some w => ValEquiv v w
  | _, _ => False

theorem classify_cases (p : List Nat) :
    classify p = .vstr p ∨ classify p = .vbytes p ∨
      ∃ n, DecodeMessage p = .ok n ∧ n ≠ [] ∧ classify p = .vmsg n := by
  unfold classify
  cases h : DecodeMessage p with
  | error e =>
    by_cases hs : isLikelyString p = true
    · left; simp [hs]
    · right; left; simp [hs]
  | ok nested =>
    by_cases h0 : nested.length > 0
    · right; right
      exact ⟨nested, rfl, by intro hcon; subst hcon; simp at h0, by simp [h0]⟩
    · by_cases hs : isLikelyString p = true
      · left; simp [h0, hs]
      · right; left; simp [h0, hs]

theorem scalarPayload_equiv {d : Option FieldDef} {v : GoVal} {pl : Sum Nat (List Nat)}
    (hv : valWF v = true) (h : scalarPayload d v = .ok pl) :
    ValEquiv v (payloadDecoded pl) := by
  have hb01 : ∀ b : Bool, i64 (toUint64 (if b then 1 else 0)) = (if b then 1 else 0) := by
    intro b; cases b <;> norm_num [toUint64, i64]
  have hb01b : ∀ b : Bool, i64 (if b then 1 else 0) = (if b then 1 else 0) := by
    intro b; cases b <;> norm_num [i64]
  have hclsb : ∀ q : List Nat, classify q = PVal.vbytes q ∨ classify q = PVal.vstr q ∨
      ∃ n, DecodeMessage q = .ok n ∧ n ≠ [] ∧ classify q = PVal.vmsg n := by
    intro q
    rcases classify_cases q with hq | hq | hq
    · exact Or.inr (Or.inl hq)
    · exact Or.inl hq
    · exact Or.inr (Or.inr hq)
  cases d with
  | none =>
    cases v <;> simp only [scalarPayload] at h <;> cases h
    · rename_i i
      simp only [valWF, decide_eq_true_eq] at hv
      simp only [payloadDecoded, ValEquiv]
      rw [i64_toUint64 hv.1 hv.2]
    · simp [payloadDecoded, ValEquiv]
    · rename_i b
      simp only [payloadDecoded, ValEquiv]
      rw [hb01b b]
    · simp only [payloadDecoded, ValEquiv]
      exact classify_cases _
    · simp only [payloadDecoded, ValEquiv]
      exact hclsb _
  | some fd =>
    cases hft : fd.type <;> cases v <;>
      simp only [scalarPayload, hft, toInt64] at h <;> cases h
    · -- tInt gint
      rename_i i
      simp only [valWF, decide_eq_true_eq] at hv
      simp only [payloadDecoded, ValEquiv]
      rw [i64_toUint64 hv.1 hv.2]
    · -- tInt guint64
      rename_i u
      simp only [valWF, decide_eq_true_eq] at hv
      simp only [payloadDecoded, ValEquiv]
      rw [toUint64_i64 hv]
    · -- tInt gbool
      rename_i b
      simp only [payloadDecoded, ValEquiv]
      rw [hb01 b]
    · -- tString gstr
      simp only [payloadDecoded, ValEquiv]
      exact classify_cases _
    · -- tBytes gstr
      simp only [payloadDecoded, ValEquiv]
      exact classify_cases _
    · -- tBytes gbytes
      simp only [payloadDecoded, ValEquiv]
      exact hclsb _
    · -- tBool gbool
      rename_i b
      simp only [payloadDecoded, ValEquiv]
      rw [hb01b b]

theorem refFields_ok_forall {sch : MessageType} :
    ∀ {items : GoMsg} {bs : List Nat}, refFields sch items = .ok bs →
      ∀ p ∈ items, ∃ pl, scalarPayload (sch.lookup p.1) p.2 = .ok pl := by
  intro items
  induction items with
  | nil => intro bs _ p hp; simp at hp
  | cons kv t ih =>
    intro bs h p hp
    obtain ⟨k, v⟩ := kv
    unfold refFields at h
    cases hpl : scalarPayload (sch.lookup k) v with
    | error e => rw [hpl] at h; simp at h
    | ok pl =>
      rw [hpl] at h
      cases hrest : refFields sch t with
      | error e => rw [hrest] at h; simp at h
      | ok bs2 =>
        rcases List.mem_cons.mp hp with rfl | hmem
        · exact ⟨pl, hpl⟩
        · exact ih hrest p hmem

/-- A message in the domain of the round-trip claim: unique numeric field
numbers (a Go map cannot repeat keys; tags wrap only above `2 ^ 61`) and
scalar values with their intrinsic Go typing bounds. -/
def GoodMsg (m : GoMsg) : Prop :=
  (m.map Prod.fst).Nodup ∧
    ∀ p ∈ m, p.1 < 2 ^ 61 ∧ isScalar p.2 = true ∧ valWF p.2 = true

instance : DecidablePred GoodMsg := fun m => by
  unfold GoodMsg
  infer_instance

/-- Claim C1: codec round trip on scalar messages.  For every message of
scalar values consistent with a schema (consistency = `Encode` accepts
it), schema-less `DecodeMessage` of the encoding succeeds, and at every
field number the decoded value is equivalent to the original
(`FieldEquiv`/`ValEquiv`), except where the nested/text/bytes heuristic
misclassifies a length-delimited payload — a text or byte payload that
itself parses as a valid non-empty nested message.  The length bound on
the output reflects Go's slice-length limit (`len` is a non-negative
`int`); above it the decoder's `int(length)` conversion is meaningless. -/
theorem encode_decode_roundtrip_scalar
    (m : GoMsg) (schema : MessageType) (bs : List Nat)
    (hgood : GoodMsg m) (henc : Encode m schema = .ok bs) (hlen : bs.length < 2 ^ 63) :
    ∃ d, DecodeMessage bs = .ok d ∧
      ∀ k, FieldEquiv (m.lookup k) (d.lookup k) := by
  obtain ⟨hnodup, hall⟩ := hgood
  have hperm : (sortPairs m).Perm m := List.perm_insertionSort _ m
  have hmemS : ∀ p ∈ sortPairs m, p ∈ m := fun p hp => hperm.subset hp
  have hscalar : ∀ p ∈ sortPairs m, isScalar p.2 = true :=
    fun p hp => (hall p (hmemS p hp)).2.1
  have hkeys : ∀ p ∈ sortPairs m, p.1 < 2 ^ 61 :=
    fun p hp => (hall p (hmemS p hp)).1
  have hwf : ∀ p ∈ sortPairs m, valWF p.2 = true :=
    fun p hp => (hall p (hmemS p hp)).2.2
  have hnodupS : ((sortPairs m).map Prod.fst).Nodup :=
    ((hperm.map Prod.fst).nodup_iff).mpr hnodup
  have hfuel : 3 * (sortPairs m).length + 1 ≤ 2 * msizePairs m + 4 := by
    have hL : (sortPairs m).length = m.length := hperm.length_eq
    have := msizePairs_ge m
    omega
  have hchar := encodeGoF_fields_scalar (sortPairs m) schema
    (2 * msizePairs m + 4) hscalar hfuel
  unfold Encode at henc
  rw [hchar] at henc
  have hdec := decode_refFields (sortPairs m) schema bs hscalar hkeys hwf henc 0 []
    (by omega)
  have hfold := foldl_addToResult_map (decodedOf schema) (sortPairs m) [] hnodupS
    (by simp [List.lookup])
  refine ⟨(sortPairs m).map (fun kv => (kv.1, decodedOf schema kv.1 kv.2)), ?_, ?_⟩
  · unfold DecodeMessage
    rw [hdec, hfold]
    rfl
  · intro k
    have hlook1 : m.lookup k = (sortPairs m).lookup k :=
      lookup_of_perm hperm.symm hnodup k
    rw [hlook1, lookup_map_value]
    cases hlk : (sortPairs m).lookup k with
    | none => exact trivial
    | some v =>
      have hmem : (k, v) ∈ sortPairs m := lookup_mem hlk
      obtain ⟨pl, hpl⟩ := refFields_ok_forall henc (k, v) hmem
      have hvwf : valWF v = true := hwf (k, v) hmem
      have hde : decodedOf schema k v = payloadDecoded pl := by
        simp [decodedOf, hpl]
      show FieldEquiv (some v) (some (decodedOf schema k v))
      simp only [FieldEquiv]
      rw [hde]
      exact scalarPayload_equiv hvwf hpl

/-- Witness for C1 at the message `{1 ↦ int64 7, 2 ↦ "hi"}` with the empty
schema (auto-detected encoding): bytes `[0x08, 0x07, 0x12, 0x02, 'h', 'i']`. -/
theorem encode_decode_roundtrip_scalar_witness :
    ∃ d, DecodeMessage [8, 7, 18, 2, 104, 105] = .ok d ∧
      ∀ k, FieldEquiv ((([(1, .gint 7), (2, .gstr (ascii "hi"))] : GoMsg)).lookup k)
        (d.lookup k) :=
  encode_decode_roundtrip_scalar [(1, .gint 7), (2, .gstr (ascii "hi"))] [] _
    (by decide) (by rfl) (by decide)

theorem addToResult_nil (f : Nat) (v : PVal) : addToResult [] f v = [(f, v)] := by
  simp [addToResult, List.lookup]

theorem addToResult_same_scalar (f : Nat) (x v : PVal)
    (hx : ∀ l, x ≠ .vseq l) :
    addToResult [(f, x)] f v = [(f, .vseq [x, v])] := by
  unfold addToResult
  have hl : ([(f, x)] : Msg).lookup f = some x := by simp [List.lookup]
  rw [hl]
  simp only [List.map_cons, List.map_nil, if_pos rfl]
  cases x <;> first | rfl | exact absurd rfl (hx _)

theorem addToResult_same_seq (f : Nat) (l : List PVal) (v : PVal) :
    addToResult [(f, .vseq l)] f v = [(f, .vseq (l ++ [v]))] := by
  unfold addToResult
  have hl : ([(f, PVal.vseq l)] : Msg).lookup f = some (.vseq l) := by simp [List.lookup]
  rw [hl]
  simp

/-- Claim C7: a schema-marked-repeated integer field holding three values
encodes as three separate tag+payload pairs with the same field number,
and schema-less decode of that output accumulates them into the ordered
3-element sequence in original order (the first-seen scalar becomes
element 0, the second occurrence turns it into a 2-element sequence, the
third appends). -/
theorem repeated_field_three_values_roundtrip
    (f : Nat) (a b c : Int) (hf : f < 2 ^ 61)
    (ha1 : -(2 ^ 63) ≤ a) (ha2 : a < 2 ^ 63)
    (hb1 : -(2 ^ 63) ≤ b) (hb2 : b < 2 ^ 63)
    (hc1 : -(2 ^ 63) ≤ c) (hc2 : c < 2 ^ 63) :
    Encode [(f, .glist [.gint a, .gint b, .gint c])] [(f, .mk .tInt true [])] =
      .ok (writeTag f 0 ++ putUvarint (toUint64 a) ++
        (writeTag f 0 ++ putUvarint (toUint64 b)) ++
        (writeTag f 0 ++ putUvarint (toUint64 c))) ∧
    DecodeMessage (writeTag f 0 ++ putUvarint (toUint64 a) ++
        (writeTag f 0 ++ putUvarint (toUint64 b)) ++
        (writeTag f 0 ++ putUvarint (toUint64 c))) =
      .ok [(f, .vseq [.vint a, .vint b, .vint c])] := by
  constructor
  · simp [Encode, encodeGoF, sortPairs, List.insertionSort, List.orderedInsert,
      List.lookup, toInt64, msizePairs, GoVal.msize, msizeList, FieldDef.repeated,
      FieldDef.type, List.append_assoc]
  · have hshape : writeTag f 0 ++ putUvarint (toUint64 a) ++
        (writeTag f 0 ++ putUvarint (toUint64 b)) ++
        (writeTag f 0 ++ putUvarint (toUint64 c)) =
        writeTag f 0 ++ (putUvarint (toUint64 a) ++
          ((writeTag f 0 ++ putUvarint (toUint64 b)) ++
           (writeTag f 0 ++ putUvarint (toUint64 c)))) := by
      simp [List.append_assoc]
    rw [hshape]
    unfold DecodeMessage
    have hdrop1 : ∀ (u : Nat) (rest : List Nat),
        (writeTag f 0 ++ (putUvarint u ++ rest)).drop
          ((writeTag f 0).length + (putUvarint u).length) = rest := by
      intro u rest
      rw [← List.append_assoc, ← List.length_append, List.drop_left]
    have hloop1 := decodeLoopF_step_scalar
      (writeTag f 0 ++ (putUvarint (toUint64 a) ++
        ((writeTag f 0 ++ putUvarint (toUint64 b)) ++
         (writeTag f 0 ++ putUvarint (toUint64 c))))).length
      []
      (decodeStep_scalar_field 0 (toUint64 a) _ hf (toUint64_lt a)) le_rfl
    rw [hloop1, hdrop1, addToResult_nil, i64_toUint64 ha1 ha2]
    have hshape2 : (writeTag f 0 ++ putUvarint (toUint64 b)) ++
        (writeTag f 0 ++ putUvarint (toUint64 c)) =
        writeTag f 0 ++ (putUvarint (toUint64 b) ++
          (writeTag f 0 ++ putUvarint (toUint64 c))) := by
      simp [List.append_assoc]
    rw [hshape2]
    have hloop2 := decodeLoopF_step_scalar
      (writeTag f 0 ++ (putUvarint (toUint64 b) ++
        (writeTag f 0 ++ putUvarint (toUint64 c)))).length
      [(f, PVal.vint a)]
      (decodeStep_scalar_field
        (0 + ((writeTag f 0).length + (putUvarint (toUint64 a)).length))
        (toUint64 b) _ hf (toUint64_lt b)) le_rfl
    rw [hloop2, hdrop1, i64_toUint64 hb1 hb2,
      addToResult_same_scalar f (.vint a) (.vint b) (by intro l h; cases h)]
    have hloop3 := decodeLoopF_step_scalar
      (writeTag f 0 ++ (putUvarint (toUint64 c) ++ ([] : List Nat))).length
      [(f, PVal.vseq [.vint a, .vint b])]
      (decodeStep_scalar_field
        (0 + ((writeTag f 0).length + (putUvarint (toUint64 a)).length) +
          ((writeTag f 0).length + (putUvarint (toUint64 b)).length))
        (toUint64 c) [] hf (toUint64_lt c)) le_rfl
    have hshape3 : writeTag f 0 ++ putUvarint (toUint64 c) =
        writeTag f 0 ++ (putUvarint (toUint64 c) ++ ([] : List Nat)) := by simp
    rw [hshape3, hloop3, hdrop1, i64_toUint64 hc1 hc2, addToResult_same_seq]
    rw [decodeLoopF_nil]
    simp

/-- Witness for C7 at field 1 with values 1, 2, 3: bytes
`[0x08, 1, 0x08, 2, 0x08, 3]`. -/
theorem repeated_field_three_values_roundtrip_witness :
    Encode [(1, .glist [.gint 1, .gint 2, .gint 3])] [(1, .mk .tInt true [])] =
      .ok [8, 1, 8, 2, 8, 3] ∧
    DecodeMessage [8, 1, 8, 2, 8, 3] =
      .ok [(1, .vseq [.vint 1, .vint 2, .vint 3])] :=
  repeated_field_three_values_roundtrip 1 1 2 3 (by norm_num) (by norm_num)
    (by norm_num) (by norm_num) (by norm_num) (by norm_num) (by norm_num)
